import Mathlib

/-!
# mp3-persist: playback order persistence and the playback loop

A shallow embedding of `src/main.go`.  Go strings are modelled as lists of
characters (`GoString`); the characters the program inspects (newline,
carriage return, sign and decimal digits) are ASCII, so for UTF-8 text the
character-level model agrees with Go's byte-level behaviour, and lengths that
Go measures in bytes are measured here with `byteLen`.  Go's `int` is the
64-bit signed integer of the platforms the program targets; it is modelled as
`Int` together with the range predicate `IsInt`.  A Go slice of strings is a
`List GoString`: the program never builds a non-nil slice of length zero, so
the test `playOrder == nil` is exactly emptiness of the list.
-/

namespace Mp3Persist

/-- A Go string, as its sequence of characters. -/
abbrev GoString := List Char

/-- Length in bytes of the UTF-8 encoding, which is what Go's `len` measures. -/
def byteLen : GoString → Nat
  | [] => 0
  | c :: cs => c.utf8Size + byteLen cs

/-! ## `strconv.Atoi` and `fmt.Sprintf("%d", _)` -/

/-- Range of Go's `int` on a 64-bit platform. -/
def IsInt (n : Int) : Prop := -(2 : Int) ^ 63 ≤ n ∧ n < (2 : Int) ^ 63

instance (n : Int) : Decidable (IsInt n) := by
  unfold IsInt
  exact inferInstance

/-- The character of a decimal digit `d < 10`. -/
def digitChar (d : Nat) : Char := Char.ofNat (48 + d)

/-- Value of a decimal digit character (`ch -= '0'; if ch > 9 then syntax error`). -/
def digitVal (c : Char) : Option Nat :=
  if 48 ≤ c.toNat ∧ c.toNat ≤ 57 then some (c.toNat - 48) else none

/-- Decimal digits of `n`, least significant first; `fuel` bounds the number of digits. -/
def digitsRev : Nat → Nat → GoString
  | 0, _ => []
  | fuel + 1, n =>
    digitChar (n % 10) :: (if n / 10 = 0 then [] else digitsRev fuel (n / 10))

/-- Decimal representation of a natural number, most significant digit first. -/
def formatNat (n : Nat) : GoString := (digitsRev (n + 1) n).reverse

/-- Text produced by `fmt.Sprintf("%d", n)`. -/
def formatInt (n : Int) : GoString :=
  if n < 0 then '-' :: formatNat n.natAbs else formatNat n.natAbs

/-- Accumulating loop over decimal digits (`n = n*10 + int(ch)`); fails on a non-digit. -/
def parseDigitsFrom : Nat → GoString → Option Nat
  | acc, [] => some acc
  | acc, c :: cs =>
    match digitVal c with
    | none => none
    | some d => parseDigitsFrom (acc * 10 + d) cs

/-- A non-empty run of decimal digits, as a natural number. -/
def parseDigits (s : GoString) : Option Nat :=
  if s = [] then none else parseDigitsFrom 0 s

/-- Model of `strconv.Atoi`: an optional sign followed by one or more decimal digits whose
value fits a 64-bit `int`; `none` stands for a syntax or range error. -/
def Atoi (s : GoString) : Option Int :=
  match s with
  | [] => none
  | c :: cs =>
    if c = '-' then
      match parseDigits cs with
      | some n => if n ≤ 2 ^ 63 then some (-(n : Int)) else none
      | none => none
    else if c = '+' then
      match parseDigits cs with
      | some n => if n < 2 ^ 63 then some (n : Int) else none
      | none => none
    else
      match parseDigits (c :: cs) with
      | some n => if n < 2 ^ 63 then some (n : Int) else none
      | none => none

/-! ## `bufio.Scanner` with the default split function `bufio.ScanLines` -/

/-- Constant `bufio.MaxScanTokenSize`: the size of the largest buffer the scanner allocates. -/
def maxScanTokenSize : Nat := 64 * 1024

/-- Function `dropCR` of package bufio: drops one trailing carriage return. -/
def dropCR (data : GoString) : GoString :=
  if data.getLast? = some '\r' then data.dropLast else data

/-- The segments of the text between newline characters.  The last segment is the
unterminated remainder after the final newline (empty when the text ends in a newline). -/
def splitNewline : GoString → List GoString
  | [] => [[]]
  | c :: cs =>
    if c = '\n' then [] :: splitNewline cs
    else
      match splitNewline cs with
      | [] => [[c]]
      | l :: ls => (c :: l) :: ls

/-- The only error `Scanner.Err` can report for a text that was read completely. -/
inductive ScanError where
  | tooLong
  deriving DecidableEq, Repr

/-- Outcome of calling `Scan` until it returns false: the tokens delivered by `Text`, in
order, and the value of `Err` afterwards. -/
structure ScanOutcome where
  tokens : List GoString
  err : Option ScanError
  deriving DecidableEq, Repr

/-- Scanning the segments of a text.  A segment that does not fit the buffer together with
its newline (65536 bytes or more before the newline, or before the end of input) stops the
scanner with `ErrTooLong`; an empty unterminated remainder is not a token; every other
segment is delivered with one trailing carriage return dropped. -/
def scanSegments : List GoString → ScanOutcome
  | [] => ⟨[], none⟩
  | [rest] =>
    if rest = [] then ⟨[], none⟩
    else if maxScanTokenSize ≤ byteLen rest then ⟨[], some .tooLong⟩
    else ⟨[dropCR rest], none⟩
  | seg :: more =>
    if maxScanTokenSize ≤ byteLen seg then ⟨[], some .tooLong⟩
    else
      let r := scanSegments more
      ⟨dropCR seg :: r.tokens, r.err⟩

/-- All calls of `scanner.Scan()` / `scanner.Text()` on a file with the given text. -/
def scanLines (text : GoString) : ScanOutcome := scanSegments (splitNewline text)

/-! ## The state file and `loadOrder` / `saveOrder` -/

/-- What the file system holds at the path of the playback order file. -/
inductive StateFile where
  /-- No file: `os.Stat` reports that it does not exist. -/
  | absent
  /-- Something is there but `os.Open` (or reading) fails. -/
  | unreadable
  /-- A readable file with this content. -/
  | present (text : GoString)
  deriving DecidableEq, Repr

/-- Function `fileExists`: `!os.IsNotExist(err)` for the error of `os.Stat`. -/
def fileExists : StateFile → Bool
  | .absent => false
  | _ => true

/-- The errors `loadOrder` returns. -/
inductive LoadError where
  /-- Error of `os.Open`. -/
  | openFailed
  /-- "error converting index". -/
  | convertingIndex
  /-- "error converting mode". -/
  | convertingMode
  /-- Error reported by `scanner.Err()`. -/
  | scan (e : ScanError)
  deriving DecidableEq, Repr

/-- The four results of `loadOrder`. -/
structure LoadResult where
  order : List GoString
  currentIndex : Int
  currentMode : Int
  err : Option LoadError
  deriving DecidableEq, Repr

/-- The result `return nil, 0, 0, err`. -/
def loadFailure (e : LoadError) : LoadResult := ⟨[], 0, 0, some e⟩

/-- The loop `for scanner.Scan() { ... lineNum++ }` of `loadOrder` over the tokens the scanner
delivers, followed by the check of `scanner.Err()` and the final return. -/
def loadLoop (scanErr : Option ScanError) :
    List GoString → Nat → List GoString → Int → Int → LoadResult
  | [], _, order, currentIndex, currentMode =>
    match scanErr with
    | some e => loadFailure (.scan e)
    | none => ⟨order, currentIndex, currentMode, none⟩
  | line :: rest, lineNum, order, currentIndex, currentMode =>
    if lineNum = 0 then
      match Atoi line with
      | none => loadFailure .convertingIndex
      | some v => loadLoop scanErr rest (lineNum + 1) order v currentMode
    else if lineNum = 1 then
      match Atoi line with
      | none => loadFailure .convertingMode
      | some v => loadLoop scanErr rest (lineNum + 1) order currentIndex v
    else
      loadLoop scanErr rest (lineNum + 1) (order ++ [line]) currentIndex currentMode

/-- Function `loadOrder` on a file that was opened and has the given text. -/
def loadOrderText (text : GoString) : LoadResult :=
  let sc := scanLines text
  loadLoop sc.err sc.tokens 0 [] 0 0

/-- Function `loadOrder`. -/
def loadOrder : StateFile → LoadResult
  | .present text => loadOrderText text
  | _ => loadFailure .openFailed

/-- The lines `writer.WriteString(line + "\n")` for each element of `order`. -/
def writeLines : List GoString → GoString
  | [] => []
  | line :: rest => line ++ '\n' :: writeLines rest

/-- Everything `saveOrder` hands to the writer: the index line, the mode line, the paths. -/
def saveOrderText (order : List GoString) (currentIndex currentMode : Int) : GoString :=
  formatInt currentIndex ++ '\n' :: (formatInt currentMode ++ '\n' :: writeLines order)

/-- How a call of `saveOrder` ends.  `os.Create` truncates the file, and the buffered writer
emits the text front to back, so a failed write leaves a truncated file holding the first
`written` characters of the text. -/
inductive SaveOutcome where
  /-- Everything was written and flushed; `saveOrder` returns nil. -/
  | ok
  /-- Call `os.Create` failed; the file is untouched. -/
  | createFailed
  /-- A write or the final flush failed after `written` characters. -/
  | writeFailed (written : Nat)
  deriving DecidableEq, Repr

/-- Function `saveOrder`: the file afterwards and whether an error is returned. -/
def saveOrder (outcome : SaveOutcome) (file : StateFile) (order : List GoString)
    (currentIndex currentMode : Int) : StateFile × Bool :=
  match outcome with
  | .ok => (.present (saveOrderText order currentIndex currentMode), false)
  | .createFailed => (file, true)
  | .writeFailed written =>
    (.present ((saveOrderText order currentIndex currentMode).take written), true)

/-- The lines of a text as `bufio.ScanLines` defines them, with no limit on their length:
each segment with one trailing carriage return dropped, an empty unterminated remainder
not being a line.  This is the meaning of "first line" and "second line" of a state file. -/
def segmentsToLines : List GoString → List GoString
  | [] => []
  | [rest] => if rest = [] then [] else [dropCR rest]
  | seg :: more => dropCR seg :: segmentsToLines more

/-- The lines of a text. -/
def textLines (text : GoString) : List GoString := segmentsToLines (splitNewline text)

/-! ## `rand.Shuffle` -/

/-- The swap function handed to `rand.Shuffle`:
`playOrder[i], playOrder[j] = playOrder[j], playOrder[i]`. -/
def swapAt (xs : List GoString) (i j : Nat) : List GoString :=
  match xs[i]?, xs[j]? with
  | some a, some b => (xs.set i b).set j a
  | _, _ => xs

/-- The Fisher-Yates loop of `rand.Shuffle`, `for i := n - 1; i > 0; i-- { j := r.Intn(i + 1);
swap(i, j) }`, started at loop variable `i`.  The random source is any function `rnd`: the
number drawn at loop variable `i` is `rnd i % (i + 1)`, so that every choice of values
`0 ≤ j ≤ i` is the outcome for some `rnd`. -/
def shuffleFrom (rnd : Nat → Nat) : Nat → List GoString → List GoString
  | 0, xs => xs
  | i + 1, xs => shuffleFrom rnd i (swapAt xs (i + 1) (rnd (i + 1) % (i + 2)))

/-- Call `rand.Shuffle(len(playOrder), swap)`. -/
def Shuffle (rnd : Nat → Nat) (xs : List GoString) : List GoString :=
  shuffleFrom rnd (xs.length - 1) xs

/-! ## `main`: reconciliation at startup -/

/-- The variables `playOrder` and `currentIndex` of `main`. -/
structure LoopState where
  playOrder : List GoString
  currentIndex : Int
  deriving DecidableEq, Repr

/-- The calls of `log.Fatal` after the directory walk. -/
inductive Fatal where
  /-- "No mp3 files found." -/
  | noFiles
  /-- "Error saving playback order". -/
  | saveFailed
  deriving DecidableEq, Repr

/-- How the part of `main` before the playback loop ends: the process exits, or the loop is
entered with the given variables; in both cases with the state file as it then is. -/
inductive Startup where
  | fatal (e : Fatal) (file : StateFile)
  | enter (s : LoopState) (file : StateFile)
  deriving DecidableEq, Repr

/-- The state entering the playback loop and the state file at that moment, if the loop is
entered. -/
def Startup.entered : Startup → Option (LoopState × StateFile)
  | .fatal _ _ => none
  | .enter s file => some (s, file)

/-- The block "Attempt to load existing playback order": the values of `playOrder` and
`currentIndex` after it.  Both start at their zero values. -/
def loadExisting (shuffleFlag : Int) (file : StateFile) : LoopState :=
  if fileExists file then
    let r := loadOrder file
    let playOrder := if r.err.isSome then [] else r.order
    let playOrder := if r.currentMode ≠ shuffleFlag then [] else playOrder
    ⟨playOrder, r.currentIndex⟩
  else ⟨[], 0⟩

/-- Function `main` from the check of the discovered files up to the playback loop.  Input:
the list `files` collected by the walk, the value of `-shuffle`, the state file, the random
source of the shuffle and the outcome of the save. -/
def startup (files : List GoString) (shuffleFlag : Int) (file : StateFile)
    (rnd : Nat → Nat) (save : SaveOutcome) : Startup :=
  if files.length = 0 then .fatal .noFiles file
  else
    let loaded := loadExisting shuffleFlag file
    if loaded.playOrder.isEmpty || loaded.playOrder.length ≠ files.length then
      let playOrder := if shuffleFlag = 1 then Shuffle rnd files else files
      let currentIndex : Int := 0
      match saveOrder save file playOrder currentIndex shuffleFlag with
      | (written, true) => .fatal .saveFailed written
      | (written, false) => .enter ⟨playOrder, currentIndex⟩ written
    else .enter loaded file

/-! ## `main`: the playback loop -/

/-- What one pass of the loop meets outside the program: the random source of a reshuffle,
whether `afplay` ran without error, and the outcome of the save. -/
structure IterEnv where
  rnd : Nat → Nat
  playerOk : Bool
  save : SaveOutcome

/-- Messages of one pass of the loop. -/
inductive LogEvent where
  /-- "Playing: %s". -/
  | playing (currentFile : GoString)
  /-- "Error playing file %s". -/
  | playError (currentFile : GoString)
  /-- "Error saving playback order". -/
  | saveError
  deriving DecidableEq, Repr

/-- One completed pass of the loop. -/
structure IterResult where
  /-- The track handed to the player. -/
  currentFile : GoString
  /-- The variables at the end of the pass. -/
  state : LoopState
  /-- The state file at the end of the pass. -/
  file : StateFile
  /-- What was printed and logged. -/
  log : List LogEvent
  deriving DecidableEq, Repr

/-- The block "Restart from beginning if at end of list". -/
def wrapAround (shuffleFlag : Int) (rnd : Nat → Nat) (s : LoopState) : LoopState :=
  if s.currentIndex ≥ (s.playOrder.length : Int) then
    ⟨if shuffleFlag = 1 then Shuffle rnd s.playOrder else s.playOrder, 0⟩
  else s

/-- Go's index expression `playOrder[currentIndex]`; `none` is the run-time panic
"index out of range". -/
def indexAt (playOrder : List GoString) (currentIndex : Int) : Option GoString :=
  if currentIndex < 0 then none else playOrder[currentIndex.toNat]?

/-- One pass of the body of `for { ... }`; `none` when the pass panics.  After the
wraparound check `currentIndex < len(playOrder)`, so `currentIndex++` cannot overflow.  The
break between tracks only passes time and is not modelled. -/
def loopIteration (shuffleFlag : Int) (env : IterEnv) (s : LoopState) (file : StateFile) :
    Option IterResult :=
  let s1 := wrapAround shuffleFlag env.rnd s
  match indexAt s1.playOrder s1.currentIndex with
  | none => none
  | some currentFile =>
    let currentIndex := s1.currentIndex + 1
    let saved := saveOrder env.save file s1.playOrder currentIndex shuffleFlag
    some
      { currentFile := currentFile
        state := ⟨s1.playOrder, currentIndex⟩
        file := saved.1
        log := [LogEvent.playing currentFile]
          ++ (if env.playerOk then [] else [LogEvent.playError currentFile])
          ++ (if saved.2 then [LogEvent.saveError] else []) }


/-- Several passes of the loop, one environment per pass: the results of the passes in
order, or `none` when a pass panics. -/
def runLoop (shuffleFlag : Int) : List IterEnv → LoopState → StateFile → Option (List IterResult)
  | [], _, _ => some []
  | env :: envs, s, file =>
    match loopIteration shuffleFlag env s file with
    | none => none
    | some r =>
      match runLoop shuffleFlag envs r.state r.file with
      | none => none
      | some rs => some (r :: rs)

/-- A pass of the loop during which the process is killed while `afplay` runs: the track
that was playing and the state file left behind.  The pass has not reached `saveOrder`, so
the file is the one the pass started with; the variables are lost.  `none` when the pass
panics before the player is started. -/
def killedIteration (shuffleFlag : Int) (rnd : Nat → Nat) (s : LoopState) (file : StateFile) :
    Option (GoString × StateFile) :=
  let s1 := wrapAround shuffleFlag rnd s
  match indexAt s1.playOrder s1.currentIndex with
  | none => none
  | some currentFile => some (currentFile, file)

/-- A start of the program followed by the first pass of the loop: the first track handed to
the player, if the loop is entered and the pass does not panic. -/
def firstTrackAfterStart (files : List GoString) (shuffleFlag : Int) (file : StateFile)
    (rnd : Nat → Nat) (save : SaveOutcome) (env : IterEnv) : Option GoString :=
  match startup files shuffleFlag file rnd save with
  | .fatal _ _ => none
  | .enter s written => (loopIteration shuffleFlag env s written).map (fun r => r.currentFile)

/-! ## `main`: the directory walk -/

/-- Function `os.IsPathSeparator` on Unix, where the player `afplay` exists. -/
def isPathSeparator (c : Char) : Bool := c = '/'

/-- The loop of `filepath.Ext`, `for i := len(path) - 1; i >= 0 && !os.IsPathSeparator(path[i]);
i--`, over the characters of the path from the last one backwards; `seen` holds the
characters already passed, so `path[i:]` is the current character followed by `seen`. -/
def extLoop : GoString → GoString → GoString
  | [], _ => []
  | c :: before, seen =>
    if isPathSeparator c then []
    else if c = '.' then '.' :: seen
    else extLoop before (c :: seen)

/-- Function `filepath.Ext`. -/
def Ext (path : GoString) : GoString := extLoop path.reverse []

/-- Lower-casing of an ASCII character: the letters A to Z are moved by `'a' - 'A'`. -/
def asciiLower (c : Char) : Char :=
  if 65 ≤ c.toNat ∧ c.toNat ≤ 90 then Char.ofNat (c.toNat + 32) else c

/-- Function `unicode.ToLower` on one character.  Above ASCII Go consults the Unicode case
tables, which are not part of the program and are taken as the parameter `unicodeLower`. -/
def toLowerRune (unicodeLower : Char → Char) (c : Char) : Char :=
  if c.toNat < 128 then asciiLower c else unicodeLower c

/-- What is used of the Unicode case tables: no character above ASCII has one of the
characters of ".mp3" as its lower case.  (The only ASCII letters that are the lower case of
a character above ASCII are i and k.) -/
def AvoidsMp3 (unicodeLower : Char → Char) : Prop :=
  ∀ c : Char, 128 ≤ c.toNat →
    unicodeLower c ≠ '.' ∧ unicodeLower c ≠ 'm' ∧ unicodeLower c ≠ 'p' ∧ unicodeLower c ≠ '3'

/-- Function `strings.ToLower`. -/
def ToLower (unicodeLower : Char → Char) (s : GoString) : GoString :=
  s.map (toLowerRune unicodeLower)

/-- One call of the function handed to `filepath.Walk`: the visited path, whether
`info.IsDir()` holds, and whether the walk reports an error for it. -/
structure WalkEntry where
  path : GoString
  isDir : Bool
  err : Bool
  deriving DecidableEq, Repr

/-- The function handed to `filepath.Walk`, acting on the slice `files`; `none` is the
return of the error, which ends the walk and the process. -/
def walkFn (unicodeLower : Char → Char) (files : List GoString) (e : WalkEntry) :
    Option (List GoString) :=
  if e.err then none
  else if !e.isDir && decide (ToLower unicodeLower (Ext e.path) = ".mp3".toList) then
    some (files ++ [e.path])
  else some files

/-- The walk over the visited entries in the order of their visit, starting with `files`. -/
def walkAll (unicodeLower : Char → Char) : List WalkEntry → List GoString →
    Option (List GoString)
  | [], files => some files
  | e :: rest, files =>
    match walkFn unicodeLower files e with
    | none => none
    | some files1 => walkAll unicodeLower rest files1

/-- The last element of a path in the words of the specification: what follows the last
separator. -/
def lastElement (path : GoString) : GoString :=
  (path.reverse.takeWhile (fun c => c ≠ '/')).reverse

/-- The extension of a path element in the words of the specification: the suffix starting
at its last dot, empty when it has no dot. -/
def suffixFromLastDot (element : GoString) : GoString :=
  if '.' ∈ element then '.' :: (element.reverse.takeWhile (fun c => c ≠ '.')).reverse else []


/-! ## Decimal formatting and parsing -/

theorem digitVal_digitChar (d : Nat) (h : d < 10) : digitVal (digitChar d) = some d := by
  interval_cases d <;> rfl

theorem digitChar_props (d : Nat) (h : d < 10) :
    digitChar d ≠ '-' ∧ digitChar d ≠ '+' ∧ digitChar d ≠ '\n' ∧ digitChar d ≠ '\r' ∧
      (digitChar d).utf8Size = 1 := by
  interval_cases d <;> decide

theorem parseDigitsFrom_append (l : GoString) (c : Char) (acc : Nat) :
    parseDigitsFrom acc (l ++ [c]) =
      (parseDigitsFrom acc l).bind (fun a => (digitVal c).map (fun d => a * 10 + d)) := by
  induction l generalizing acc with
  | nil =>
    simp only [List.nil_append, parseDigitsFrom]
    cases digitVal c <;> rfl
  | cons x xs ih =>
    simp only [List.cons_append, parseDigitsFrom]
    cases digitVal x with
    | none => rfl
    | some d => exact ih _

theorem parseDigitsFrom_digitsRev (fuel n : Nat) (h : n < fuel) :
    parseDigitsFrom 0 (digitsRev fuel n).reverse = some n := by
  induction fuel generalizing n with
  | zero => omega
  | succ f ih =>
    simp only [digitsRev, List.reverse_cons]
    rw [parseDigitsFrom_append, digitVal_digitChar _ (Nat.mod_lt _ (by decide))]
    by_cases h0 : n / 10 = 0
    · simp only [h0, if_true, List.reverse_nil, parseDigitsFrom, Option.some_bind, Option.map_some']
      congr 1
      omega
    · simp only [h0, if_false]
      rw [ih (n / 10) (by omega)]
      simp only [Option.some_bind, Option.map_some']
      congr 1
      omega

theorem mem_digitsRev (fuel n : Nat) (c : Char) (hc : c ∈ digitsRev fuel n) :
    ∃ d, d < 10 ∧ c = digitChar d := by
  induction fuel generalizing n with
  | zero => simp [digitsRev] at hc
  | succ f ih =>
    simp only [digitsRev, List.mem_cons] at hc
    rcases hc with hc | hc
    · exact ⟨n % 10, Nat.mod_lt _ (by decide), hc⟩
    · by_cases h0 : n / 10 = 0
      · simp [h0] at hc
      · simp only [h0, if_false] at hc
        exact ih _ hc

theorem length_digitsRev_le (fuel k n : Nat) (h : n < 10 ^ (k + 1)) :
    (digitsRev fuel n).length ≤ k + 1 := by
  induction fuel generalizing n k with
  | zero => simp [digitsRev]
  | succ f ih =>
    simp only [digitsRev, List.length_cons]
    by_cases h0 : n / 10 = 0
    · simp [h0]
    · simp only [h0, if_false]
      cases k with
      | zero =>
        exfalso
        simp only [zero_add, pow_one] at h
        omega
      | succ k =>
        have hk : n / 10 < 10 ^ (k + 1) := by
          rw [Nat.div_lt_iff_lt_mul (by decide)]
          rw [pow_succ] at h
          exact h
        have := ih k (n / 10) hk
        omega

theorem formatNat_ne_nil (n : Nat) : formatNat n ≠ [] := by
  simp [formatNat, digitsRev]

theorem mem_formatNat (n : Nat) (c : Char) (hc : c ∈ formatNat n) :
    ∃ d, d < 10 ∧ c = digitChar d := by
  simp only [formatNat, List.mem_reverse] at hc
  exact mem_digitsRev _ _ _ hc

theorem parseDigits_formatNat (n : Nat) : parseDigits (formatNat n) = some n := by
  simp only [parseDigits, formatNat_ne_nil, if_false]
  exact parseDigitsFrom_digitsRev _ _ (Nat.lt_succ_self n)

theorem Atoi_formatNat (n : Nat) (h : n < 2 ^ 63) : Atoi (formatNat n) = some (n : Int) := by
  have hp := parseDigits_formatNat n
  have hmem := mem_formatNat n
  cases hf : formatNat n with
  | nil => exact absurd hf (formatNat_ne_nil n)
  | cons c cs =>
    rw [hf] at hp hmem
    obtain ⟨d, hd, rfl⟩ := hmem c (List.mem_cons_self _ _)
    have hprops := digitChar_props d hd
    simp only [Atoi, hprops.1, hprops.2.1, if_false, hp, h, if_true]

theorem Atoi_formatInt (n : Int) (h : IsInt n) : Atoi (formatInt n) = some n := by
  obtain ⟨hlo, hhi⟩ := h
  by_cases hneg : n < 0
  · have hle : n.natAbs ≤ 2 ^ 63 := by omega
    have hn : -(n.natAbs : Int) = n := by omega
    simp only [formatInt, hneg, if_true, Atoi, parseDigits_formatNat, hle, hn]
  · have hlt : n.natAbs < 2 ^ 63 := by omega
    have hn : (n.natAbs : Int) = n := by omega
    simp only [formatInt, hneg, if_false]
    rw [Atoi_formatNat _ hlt, hn]

/-- Every character of a formatted integer is a sign or a digit: one byte, never a newline
or a carriage return. -/
theorem mem_formatInt (n : Int) (c : Char) (hc : c ∈ formatInt n) :
    c ≠ '\n' ∧ c ≠ '\r' ∧ c.utf8Size = 1 := by
  have hdig : ∀ c ∈ formatNat n.natAbs, c ≠ '\n' ∧ c ≠ '\r' ∧ c.utf8Size = 1 := by
    intro c hc
    obtain ⟨d, hd, rfl⟩ := mem_formatNat _ _ hc
    have := digitChar_props d hd
    exact ⟨this.2.2.1, this.2.2.2.1, this.2.2.2.2⟩
  unfold formatInt at hc
  split at hc
  · rcases List.mem_cons.1 hc with rfl | hc
    · decide
    · exact hdig c hc
  · exact hdig c hc

theorem byteLen_eq_length (s : GoString) (h : ∀ c ∈ s, c.utf8Size = 1) :
    byteLen s = s.length := by
  induction s with
  | nil => rfl
  | cons c cs ih =>
    simp only [byteLen, List.length_cons]
    rw [h c (List.mem_cons_self _ _), ih (fun x hx => h x (List.mem_cons_of_mem _ hx))]
    omega

theorem length_formatInt_le (n : Int) (h : IsInt n) : (formatInt n).length ≤ 20 := by
  obtain ⟨hlo, hhi⟩ := h
  have hk : n.natAbs < 10 ^ (18 + 1) := by
    have : n.natAbs ≤ 2 ^ 63 := by omega
    have h2 : (2 : Nat) ^ 63 < 10 ^ (18 + 1) := by norm_num
    omega
  have hlen : (formatNat n.natAbs).length ≤ 19 := by
    simp only [formatNat, List.length_reverse]
    exact length_digitsRev_le _ 18 _ hk
  unfold formatInt
  split
  · simp only [List.length_cons]
    omega
  · omega

theorem byteLen_formatInt_lt (n : Int) (h : IsInt n) :
    byteLen (formatInt n) < maxScanTokenSize := by
  rw [byteLen_eq_length _ (fun c hc => (mem_formatInt n c hc).2.2)]
  have := length_formatInt_le n h
  have : (20 : Nat) < maxScanTokenSize := by decide
  omega


/-! ## Splitting a text into lines -/

theorem splitNewline_ne_nil (text : GoString) : splitNewline text ≠ [] := by
  cases text with
  | nil => simp [splitNewline]
  | cons c cs =>
    simp only [splitNewline]
    split
    · simp
    · split <;> simp

theorem splitNewline_append (line rest : GoString) (h : '\n' ∉ line) :
    splitNewline (line ++ '\n' :: rest) = line :: splitNewline rest := by
  induction line with
  | nil => simp [splitNewline]
  | cons c cs ih =>
    have hc : c ≠ '\n' := fun e => h (e ▸ List.mem_cons_self _ _)
    have hcs : '\n' ∉ cs := fun e => h (List.mem_cons_of_mem _ e)
    simp only [List.cons_append, splitNewline, hc, if_false, List.append_eq, ih hcs]

theorem splitNewline_of_not_mem (line : GoString) (h : '\n' ∉ line) :
    splitNewline line = [line] := by
  induction line with
  | nil => rfl
  | cons c cs ih =>
    have hc : c ≠ '\n' := fun e => h (e ▸ List.mem_cons_self _ _)
    have hcs : '\n' ∉ cs := fun e => h (List.mem_cons_of_mem _ e)
    simp only [splitNewline, hc, if_false, ih hcs]

theorem scanSegments_cons (seg : GoString) (more : List GoString) (h : more ≠ []) :
    scanSegments (seg :: more) =
      if maxScanTokenSize ≤ byteLen seg then ⟨[], some .tooLong⟩
      else ⟨dropCR seg :: (scanSegments more).tokens, (scanSegments more).err⟩ := by
  cases more with
  | nil => exact absurd rfl h
  | cons m ms => simp only [scanSegments]

theorem segmentsToLines_cons (seg : GoString) (more : List GoString) (h : more ≠ []) :
    segmentsToLines (seg :: more) = dropCR seg :: segmentsToLines more := by
  cases more with
  | nil => exact absurd rfl h
  | cons m ms => simp only [segmentsToLines]

/-- A complete line at the front of a text is the first token, when it fits the buffer. -/
theorem scanLines_line (line rest : GoString) (hnl : '\n' ∉ line)
    (hlen : byteLen line < maxScanTokenSize) :
    scanLines (line ++ '\n' :: rest) =
      ⟨dropCR line :: (scanLines rest).tokens, (scanLines rest).err⟩ := by
  unfold scanLines
  rw [splitNewline_append _ _ hnl, scanSegments_cons _ _ (splitNewline_ne_nil rest),
    if_neg (by omega)]

/-- A complete line at the front of a text that does not fit the buffer stops the scanner. -/
theorem scanLines_long_line (line rest : GoString) (hnl : '\n' ∉ line)
    (hlen : maxScanTokenSize ≤ byteLen line) :
    scanLines (line ++ '\n' :: rest) = ⟨[], some .tooLong⟩ := by
  unfold scanLines
  rw [splitNewline_append _ _ hnl, scanSegments_cons _ _ (splitNewline_ne_nil rest),
    if_pos hlen]

theorem dropCR_of_getLast (line : GoString) (h : line.getLast? ≠ some '\r') :
    dropCR line = line := by
  simp only [dropCR, h, if_false]

theorem scanLines_writeLines (order : List GoString)
    (hnl : ∀ p ∈ order, '\n' ∉ p) (hcr : ∀ p ∈ order, p.getLast? ≠ some '\r')
    (hlen : ∀ p ∈ order, byteLen p < maxScanTokenSize) :
    scanLines (writeLines order) = ⟨order, none⟩ := by
  induction order with
  | nil => rfl
  | cons p ps ih =>
    have hp := List.mem_cons_self p ps
    simp only [writeLines]
    rw [scanLines_line _ _ (hnl p hp) (hlen p hp), dropCR_of_getLast _ (hcr p hp),
      ih (fun q hq => hnl q (List.mem_cons_of_mem _ hq))
        (fun q hq => hcr q (List.mem_cons_of_mem _ hq))
        (fun q hq => hlen q (List.mem_cons_of_mem _ hq))]

/-! ## The loop of `loadOrder` -/

/-- From the third line on every token is appended to `order`. -/
theorem loadLoop_paths (scanErr : Option ScanError) (tokens order : List GoString)
    (lineNum : Nat) (h : 2 ≤ lineNum) (currentIndex currentMode : Int) :
    loadLoop scanErr tokens lineNum order currentIndex currentMode =
      match scanErr with
      | some e => loadFailure (.scan e)
      | none => ⟨order ++ tokens, currentIndex, currentMode, none⟩ := by
  induction tokens generalizing lineNum order with
  | nil => simp [loadLoop]
  | cons t ts ih =>
    have h0 : lineNum ≠ 0 := by omega
    have h1 : lineNum ≠ 1 := by omega
    simp only [loadLoop, h0, h1, if_false]
    rw [ih (order ++ [t]) (lineNum + 1) (by omega)]
    simp

theorem formatInt_dropCR (n : Int) : dropCR (formatInt n) = formatInt n := by
  apply dropCR_of_getLast
  intro h
  have hm := List.mem_of_getLast?_eq_some h
  exact (mem_formatInt n _ hm).2.1 rfl

theorem formatInt_no_newline (n : Int) : '\n' ∉ formatInt n :=
  fun h => (mem_formatInt n _ h).1 rfl

/-- What the scanner delivers for a text written by `saveOrder`, given what it delivers for
the path lines. -/
theorem scanLines_saveOrderText (order : List GoString) (currentIndex currentMode : Int)
    (hi : IsInt currentIndex) (hm : IsInt currentMode) :
    scanLines (saveOrderText order currentIndex currentMode) =
      ⟨formatInt currentIndex :: formatInt currentMode :: (scanLines (writeLines order)).tokens,
        (scanLines (writeLines order)).err⟩ := by
  unfold saveOrderText
  rw [scanLines_line _ _ (formatInt_no_newline _) (byteLen_formatInt_lt _ hi),
    scanLines_line _ _ (formatInt_no_newline _) (byteLen_formatInt_lt _ hm),
    formatInt_dropCR, formatInt_dropCR]

/-- What `loadOrder` returns for a text written by `saveOrder`, given what the scanner
delivers for the path lines. -/
theorem loadOrderText_saveOrderText (order : List GoString) (currentIndex currentMode : Int)
    (hi : IsInt currentIndex) (hm : IsInt currentMode) :
    loadOrderText (saveOrderText order currentIndex currentMode) =
      match (scanLines (writeLines order)).err with
      | some e => loadFailure (.scan e)
      | none => ⟨(scanLines (writeLines order)).tokens, currentIndex, currentMode, none⟩ := by
  unfold loadOrderText
  simp only [scanLines_saveOrderText order currentIndex currentMode hi hm]
  simp only [loadLoop, if_true, Atoi_formatInt _ hi, Atoi_formatInt _ hm]
  simp only [Nat.zero_add, Nat.succ_ne_zero, if_false, if_true]
  rw [loadLoop_paths _ _ _ _ (by omega)]
  simp


/-! ## Round trip of `saveOrder` and `loadOrder` -/

theorem byteLen_replicate (n : Nat) : byteLen (List.replicate n 'a') = n := by
  induction n with
  | zero => rfl
  | succ k ih =>
    simp only [List.replicate_succ, byteLen, ih]
    have : 'a'.utf8Size = 1 := by decide
    omega

theorem newline_not_mem_replicate (n : Nat) : '\n' ∉ List.replicate n 'a' := by
  intro h
  have := List.eq_of_mem_replicate h
  revert this
  decide

/-- A path of `n` letters, `n` at least the buffer size of the scanner, is written by
`saveOrder` but makes `loadOrder` fail on the text. -/
theorem loadOrderText_long_path (n : Nat) (h : maxScanTokenSize ≤ n) :
    loadOrderText (saveOrderText [List.replicate n 'a'] 0 0) =
      loadFailure (.scan .tooLong) := by
  rw [loadOrderText_saveOrderText _ _ _ (by decide) (by decide)]
  simp only [writeLines]
  rw [scanLines_long_line _ _ (newline_not_mem_replicate n) (by rw [byteLen_replicate]; exact h)]

/-- C1 (as amended): for every order, position and mode (position and mode being values of
Go's `int`) in which no path contains a newline, no path ends in a carriage return and every
path is shorter than 65536 bytes, a successful `saveOrder` followed by `loadOrder` of the
file it wrote succeeds and returns exactly the same order, position and mode. -/
theorem saveOrder_loadOrder_roundtrip (order : List GoString) (position mode : Int)
    (file : StateFile) (hp : IsInt position) (hm : IsInt mode)
    (hnl : ∀ p ∈ order, '\n' ∉ p) (hcr : ∀ p ∈ order, p.getLast? ≠ some '\r')
    (hlen : ∀ p ∈ order, byteLen p < maxScanTokenSize) :
    (saveOrder .ok file order position mode).2 = false ∧
      loadOrder (saveOrder .ok file order position mode).1 = ⟨order, position, mode, none⟩ := by
  refine ⟨rfl, ?_⟩
  simp only [saveOrder, loadOrder]
  rw [loadOrderText_saveOrderText _ _ _ hp hm, scanLines_writeLines order hnl hcr hlen]

/-- Witness for C1: two paths, position 1, mode 1. -/
theorem saveOrder_loadOrder_roundtrip_witness :
    (IsInt 1 ∧ (∀ p ∈ ["/m/a.mp3".toList, "/m/b c.mp3".toList], '\n' ∉ p)) ∧
      ((saveOrder .ok .absent ["/m/a.mp3".toList, "/m/b c.mp3".toList] 1 1).2 = false ∧
        loadOrder (saveOrder .ok .absent ["/m/a.mp3".toList, "/m/b c.mp3".toList] 1 1).1 =
          ⟨["/m/a.mp3".toList, "/m/b c.mp3".toList], 1, 1, none⟩) :=
  ⟨by decide,
    saveOrder_loadOrder_roundtrip ["/m/a.mp3".toList, "/m/b c.mp3".toList] 1 1 .absent
      (by decide) (by decide) (by decide) (by decide) (by decide)⟩

/-- C1 as stated fails: a path ending in a carriage return contains no newline but comes
back without the carriage return, and a path of 65536 letters contains no newline but makes
`loadOrder` fail with the scanner's "token too long". -/
theorem roundtrip_counterexample :
    ((∀ p ∈ [['a', '\r']], '\n' ∉ p) ∧
      loadOrder (saveOrder .ok .absent [['a', '\r']] 0 0).1 = ⟨[['a']], 0, 0, none⟩ ∧
      (⟨[['a']], 0, 0, none⟩ : LoadResult) ≠ ⟨[['a', '\r']], 0, 0, none⟩) ∧
    ((∀ p ∈ [List.replicate 65536 'a'], '\n' ∉ p) ∧
      loadOrder (saveOrder .ok .absent [List.replicate 65536 'a'] 0 0).1 =
        loadFailure (.scan .tooLong)) := by
  refine ⟨⟨by decide, by decide, by decide⟩, ?_, ?_⟩
  · intro p hp
    rw [List.mem_singleton] at hp
    rw [hp]
    exact newline_not_mem_replicate 65536
  · exact loadOrderText_long_path 65536 (by decide)


/-! ## `rand.Shuffle` permutes -/

theorem set_cons_perm (xs : List GoString) (i : Nat) (a b : GoString) (h : xs[i]? = some a) :
    (a :: xs.set i b).Perm (b :: xs) := by
  induction xs generalizing i with
  | nil => simp at h
  | cons x t ih =>
    cases i with
    | zero =>
      simp only [List.getElem?_cons_zero, Option.some.injEq] at h
      subst h
      simp only [List.set_cons_zero]
      exact List.Perm.swap _ _ _
    | succ k =>
      simp only [List.getElem?_cons_succ] at h
      simp only [List.set_cons_succ]
      exact (List.Perm.swap x a _).trans (((ih k h).cons x).trans (List.Perm.swap b x t))

theorem getElem?_set_swap (xs : List GoString) (i j : Nat) (a b : GoString)
    (hi : xs[i]? = some a) (hj : xs[j]? = some b) : (xs.set i b)[j]? = some b := by
  by_cases hij : i = j
  · subst hij
    have hlt : i < xs.length := by
      rcases Nat.lt_or_ge i xs.length with h | h
      · exact h
      · rw [List.getElem?_eq_none h] at hi
        cases hi
    simp [List.getElem?_set_self, hlt]
  · rw [List.getElem?_set_ne hij]
    exact hj

theorem swapAt_perm (xs : List GoString) (i j : Nat) : (swapAt xs i j).Perm xs := by
  unfold swapAt
  cases hi : xs[i]? with
  | none => exact List.Perm.refl _
  | some a =>
    cases hj : xs[j]? with
    | none => exact List.Perm.refl _
    | some b =>
      have h1 : (a :: xs.set i b).Perm (b :: xs) := set_cons_perm xs i a b hi
      have h2 : (b :: (xs.set i b).set j a).Perm (a :: xs.set i b) :=
        set_cons_perm (xs.set i b) j b a (getElem?_set_swap xs i j a b hi hj)
      exact (h2.trans h1).cons_inv

theorem shuffleFrom_perm (rnd : Nat → Nat) (i : Nat) (xs : List GoString) :
    (shuffleFrom rnd i xs).Perm xs := by
  induction i generalizing xs with
  | zero => exact List.Perm.refl _
  | succ k ih =>
    simp only [shuffleFrom]
    exact (ih _).trans (swapAt_perm _ _ _)

/-- Whatever the random source draws, the shuffled slice is a permutation of the old one. -/
theorem Shuffle_perm (rnd : Nat → Nat) (xs : List GoString) : (Shuffle rnd xs).Perm xs :=
  shuffleFrom_perm rnd _ xs

/-- The order built when no saved order is reused is a permutation of the discovered files. -/
theorem freshOrder_perm (shuffleFlag : Int) (rnd : Nat → Nat) (files : List GoString) :
    (if shuffleFlag = 1 then Shuffle rnd files else files).Perm files := by
  split
  · exact Shuffle_perm rnd files
  · exact List.Perm.refl _

/-! ## Reconciliation -/

/-- Reconciliation when the saved order is not reused and the save succeeds. -/
theorem startup_fresh (files : List GoString) (shuffleFlag : Int) (file : StateFile)
    (rnd : Nat → Nat) (hfiles : files ≠ [])
    (h : (loadExisting shuffleFlag file).playOrder = [] ∨
      (loadExisting shuffleFlag file).playOrder.length ≠ files.length) :
    startup files shuffleFlag file rnd .ok =
      .enter ⟨if shuffleFlag = 1 then Shuffle rnd files else files, 0⟩
        (.present (saveOrderText (if shuffleFlag = 1 then Shuffle rnd files else files) 0
          shuffleFlag)) := by
  have hlen : files.length ≠ 0 := fun e => hfiles (List.length_eq_zero.1 e)
  have hcond : ((loadExisting shuffleFlag file).playOrder.isEmpty ||
      decide ((loadExisting shuffleFlag file).playOrder.length ≠ files.length)) = true := by
    rcases h with h | h
    · simp [h]
    · simp [h]
  simp only [startup, hlen, if_false, hcond, if_true, saveOrder]

/-- Reconciliation when the saved order is not reused and the save fails: the process
exits. -/
theorem startup_fresh_save_failed (files : List GoString) (shuffleFlag : Int)
    (file : StateFile) (rnd : Nat → Nat) (save : SaveOutcome) (hsave : save ≠ .ok)
    (hfiles : files ≠ [])
    (h : (loadExisting shuffleFlag file).playOrder = [] ∨
      (loadExisting shuffleFlag file).playOrder.length ≠ files.length) :
    (startup files shuffleFlag file rnd save).entered = none := by
  have hlen : files.length ≠ 0 := fun e => hfiles (List.length_eq_zero.1 e)
  have hcond : ((loadExisting shuffleFlag file).playOrder.isEmpty ||
      decide ((loadExisting shuffleFlag file).playOrder.length ≠ files.length)) = true := by
    rcases h with h | h
    · simp [h]
    · simp [h]
  cases save with
  | ok => exact absurd rfl hsave
  | createFailed => simp only [startup, hlen, if_false, hcond, if_true, saveOrder, Startup.entered]
  | writeFailed n => simp only [startup, hlen, if_false, hcond, if_true, saveOrder, Startup.entered]

/-- Reconciliation when the saved order is reused. -/
theorem startup_reuse (files : List GoString) (shuffleFlag : Int) (file : StateFile)
    (rnd : Nat → Nat) (save : SaveOutcome) (hfiles : files ≠ [])
    (h : (loadExisting shuffleFlag file).playOrder.length = files.length) :
    startup files shuffleFlag file rnd save = .enter (loadExisting shuffleFlag file) file := by
  have hlen : files.length ≠ 0 := fun e => hfiles (List.length_eq_zero.1 e)
  have hne : (loadExisting shuffleFlag file).playOrder ≠ [] := by
    intro e
    rw [e] at h
    exact hlen h.symm
  have hcond : ((loadExisting shuffleFlag file).playOrder.isEmpty ||
      decide ((loadExisting shuffleFlag file).playOrder.length ≠ files.length)) = false := by
    simp [h, hne]
  simp only [startup, hlen, if_false, hcond]
  rfl

/-- The loaded values survive the block that loads when there is no error and the mode is
the requested one. -/
theorem loadExisting_ok (shuffleFlag : Int) (file : StateFile)
    (herr : (loadOrder file).err = none) (hmode : (loadOrder file).currentMode = shuffleFlag) :
    loadExisting shuffleFlag file = ⟨(loadOrder file).order, (loadOrder file).currentIndex⟩ := by
  have hex : fileExists file = true := by
    cases file with
    | absent => simp [loadOrder, loadFailure] at herr
    | unreadable => rfl
    | present text => rfl
  simp [loadExisting, hex, herr, hmode]

/-- An error of `loadOrder` leaves `playOrder` nil. -/
theorem loadExisting_error (shuffleFlag : Int) (file : StateFile)
    (herr : (loadOrder file).err ≠ none) : (loadExisting shuffleFlag file).playOrder = [] := by
  unfold loadExisting
  split
  · have : (loadOrder file).err.isSome = true := by
      cases h : (loadOrder file).err with
      | none => exact absurd h herr
      | some e => rfl
    simp [this]
  · rfl

/-- A mode other than the requested one leaves `playOrder` nil. -/
theorem loadExisting_mode_changed (shuffleFlag : Int) (file : StateFile)
    (hmode : (loadOrder file).currentMode ≠ shuffleFlag) :
    (loadExisting shuffleFlag file).playOrder = [] := by
  unfold loadExisting
  split
  · simp [hmode]
  · rfl


/-- When the saved order is not reused, a state enters the loop only after a successful
save, and it is the freshly built one. -/
theorem startup_fresh_entered (files : List GoString) (shuffleFlag : Int) (file : StateFile)
    (rnd : Nat → Nat) (save : SaveOutcome)
    (h : (loadExisting shuffleFlag file).playOrder = [] ∨
      (loadExisting shuffleFlag file).playOrder.length ≠ files.length)
    (s : LoopState) (f : StateFile)
    (he : (startup files shuffleFlag file rnd save).entered = some (s, f)) :
    s.currentIndex = 0 ∧ s.playOrder.Perm files ∧
      f = .present (saveOrderText s.playOrder 0 shuffleFlag) := by
  by_cases hfiles : files = []
  · subst hfiles
    simp [startup, Startup.entered] at he
  · by_cases hsave : save = .ok
    · subst hsave
      rw [startup_fresh files shuffleFlag file rnd hfiles h] at he
      simp only [Startup.entered, Option.some.injEq, Prod.mk.injEq] at he
      obtain ⟨hs, hf⟩ := he
      subst hs
      exact ⟨rfl, freshOrder_perm shuffleFlag rnd files, hf.symm⟩
    · rw [startup_fresh_save_failed files shuffleFlag file rnd save hsave hfiles h] at he
      cases he

/-- When the saved order is not reused, files were found and the save succeeds, the loop is
entered. -/
theorem startup_fresh_enters (files : List GoString) (shuffleFlag : Int) (file : StateFile)
    (rnd : Nat → Nat) (hfiles : files ≠ [])
    (h : (loadExisting shuffleFlag file).playOrder = [] ∨
      (loadExisting shuffleFlag file).playOrder.length ≠ files.length) :
    (startup files shuffleFlag file rnd .ok).entered ≠ none := by
  rw [startup_fresh files shuffleFlag file rnd hfiles h]
  simp [Startup.entered]

/-- C2: when the state file loads without error, with the requested mode and with as many
paths as files were discovered, the state entering the playback loop is exactly the loaded
order and the loaded position, whatever the discovered paths are, and the state file is not
rewritten; with at least one discovered file the loop is entered. -/
theorem reconcile_reuses_loaded_state (files : List GoString) (shuffleFlag : Int)
    (file : StateFile) (rnd : Nat → Nat) (save : SaveOutcome)
    (herr : (loadOrder file).err = none)
    (hmode : (loadOrder file).currentMode = shuffleFlag)
    (hlen : (loadOrder file).order.length = files.length) :
    (∀ s f, (startup files shuffleFlag file rnd save).entered = some (s, f) →
        s = ⟨(loadOrder file).order, (loadOrder file).currentIndex⟩ ∧ f = file) ∧
      (files ≠ [] →
        startup files shuffleFlag file rnd save =
          .enter ⟨(loadOrder file).order, (loadOrder file).currentIndex⟩ file) := by
  have hex := loadExisting_ok shuffleFlag file herr hmode
  have key : files ≠ [] →
      startup files shuffleFlag file rnd save =
        .enter ⟨(loadOrder file).order, (loadOrder file).currentIndex⟩ file := by
    intro hfiles
    rw [startup_reuse files shuffleFlag file rnd save hfiles (by rw [hex]; exact hlen), hex]
  refine ⟨?_, key⟩
  intro s f he
  by_cases hfiles : files = []
  · subst hfiles
    simp [startup, Startup.entered] at he
  · rw [key hfiles] at he
    simp only [Startup.entered, Option.some.injEq, Prod.mk.injEq] at he
    exact ⟨he.1.symm, he.2.symm⟩

/-- Witness for C2: a saved shuffled order of two paths at position 1 is reused although
the two discovered paths are different files. -/
theorem reconcile_reuses_loaded_state_witness :
    (loadOrder (.present "1\n1\n/m/b.mp3\n/m/a.mp3\n".toList)).err = none ∧
      startup ["/m/c.mp3".toList, "/m/d.mp3".toList] 1
          (.present "1\n1\n/m/b.mp3\n/m/a.mp3\n".toList) (fun _ => 0) .ok =
        .enter ⟨["/m/b.mp3".toList, "/m/a.mp3".toList], 1⟩
          (.present "1\n1\n/m/b.mp3\n/m/a.mp3\n".toList) :=
  ⟨by decide,
    (reconcile_reuses_loaded_state ["/m/c.mp3".toList, "/m/d.mp3".toList] 1
      (.present "1\n1\n/m/b.mp3\n/m/a.mp3\n".toList) (fun _ => 0) .ok
      (by decide) (by decide) (by decide)).2 (by decide)⟩

/-- C3: when the loaded order has a length other than the number of discovered files, the
state entering the playback loop has position 0 and an order that is a rearrangement of the
discovered files, of that length, and it is the state the state file then holds; with at
least one discovered file and a successful save the loop is entered. -/
theorem count_change_regenerates (files : List GoString) (shuffleFlag : Int)
    (file : StateFile) (rnd : Nat → Nat) (save : SaveOutcome)
    (herr : (loadOrder file).err = none)
    (hlen : (loadOrder file).order.length ≠ files.length) :
    (∀ s f, (startup files shuffleFlag file rnd save).entered = some (s, f) →
        s.currentIndex = 0 ∧ s.playOrder.length = files.length ∧ s.playOrder.Perm files ∧
          f = .present (saveOrderText s.playOrder 0 shuffleFlag)) ∧
      (files ≠ [] → (startup files shuffleFlag file rnd .ok).entered ≠ none) := by
  have hcond : (loadExisting shuffleFlag file).playOrder = [] ∨
      (loadExisting shuffleFlag file).playOrder.length ≠ files.length := by
    by_cases hmode : (loadOrder file).currentMode = shuffleFlag
    · right
      rw [loadExisting_ok shuffleFlag file herr hmode]
      exact hlen
    · left
      exact loadExisting_mode_changed shuffleFlag file hmode
  refine ⟨?_, fun hfiles => startup_fresh_enters files shuffleFlag file rnd hfiles hcond⟩
  intro s f he
  obtain ⟨h0, hperm, hf⟩ := startup_fresh_entered files shuffleFlag file rnd save hcond s f he
  exact ⟨h0, hperm.length_eq, hperm, hf⟩

/-- Witness for C3: one saved path, two discovered files. -/
theorem count_change_regenerates_witness :
    (loadOrder (.present "1\n0\n/m/a.mp3\n".toList)).order.length ≠
        ["/m/a.mp3".toList, "/m/b.mp3".toList].length ∧
      (startup ["/m/a.mp3".toList, "/m/b.mp3".toList] 0
        (.present "1\n0\n/m/a.mp3\n".toList) (fun _ => 0) .ok).entered ≠ none :=
  ⟨by decide,
    (count_change_regenerates ["/m/a.mp3".toList, "/m/b.mp3".toList] 0
      (.present "1\n0\n/m/a.mp3\n".toList) (fun _ => 0) .ok (by decide) (by decide)).2
      (by decide)⟩

/-- C4: when the loaded mode is not the requested mode, the saved order and position are
dropped even when the number of files is unchanged: the state entering the playback loop
has position 0 and an order that is a rearrangement of the discovered files, and the state
file then holds that state with the requested mode; with at least one discovered file and a
successful save the loop is entered. -/
theorem mode_change_regenerates (files : List GoString) (shuffleFlag : Int)
    (file : StateFile) (rnd : Nat → Nat) (save : SaveOutcome)
    (hmode : (loadOrder file).currentMode ≠ shuffleFlag) :
    (∀ s f, (startup files shuffleFlag file rnd save).entered = some (s, f) →
        s.currentIndex = 0 ∧ s.playOrder.Perm files ∧
          f = .present (saveOrderText s.playOrder 0 shuffleFlag)) ∧
      (files ≠ [] → (startup files shuffleFlag file rnd .ok).entered ≠ none) := by
  have hcond : (loadExisting shuffleFlag file).playOrder = [] ∨
      (loadExisting shuffleFlag file).playOrder.length ≠ files.length :=
    Or.inl (loadExisting_mode_changed shuffleFlag file hmode)
  exact ⟨fun s f he => startup_fresh_entered files shuffleFlag file rnd save hcond s f he,
    fun hfiles => startup_fresh_enters files shuffleFlag file rnd hfiles hcond⟩

/-- Witness for C4: a saved Shuffled state of two paths at position 1, Sequential requested
over two files: the loop is entered at position 0 with the files in discovery order and the
file records mode 0. -/
theorem mode_change_regenerates_witness :
    (loadOrder (.present "1\n1\n/m/b.mp3\n/m/a.mp3\n".toList)).currentMode ≠ 0 ∧
      (startup ["/m/a.mp3".toList, "/m/b.mp3".toList] 0
        (.present "1\n1\n/m/b.mp3\n/m/a.mp3\n".toList) (fun _ => 0) .ok).entered ≠ none :=
  ⟨by decide,
    (mode_change_regenerates ["/m/a.mp3".toList, "/m/b.mp3".toList] 0
      (.present "1\n1\n/m/b.mp3\n/m/a.mp3\n".toList) (fun _ => 0) .ok (by decide)).2
      (by decide)⟩


/-! ## Header lines of the state file -/

/-- A line of the text is delivered by the scanner at the same place, unless the scanner
stopped with "token too long" at or before it. -/
theorem scanSegments_line (segs : List GoString) (k : Nat) (l : GoString)
    (h : (segmentsToLines segs)[k]? = some l) :
    (scanSegments segs).tokens[k]? = some l ∨
      ((scanSegments segs).tokens.length ≤ k ∧ (scanSegments segs).err = some .tooLong) := by
  induction segs generalizing k with
  | nil => simp [segmentsToLines] at h
  | cons seg more ih =>
    cases more with
    | nil =>
      simp only [segmentsToLines] at h
      simp only [scanSegments]
      by_cases he : seg = []
      · simp [he] at h
      · simp only [he, if_false] at h ⊢
        by_cases hl : maxScanTokenSize ≤ byteLen seg
        · right
          simp [hl]
        · left
          simp only [hl, if_false]
          exact h
    | cons m ms =>
      rw [segmentsToLines_cons _ _ (List.cons_ne_nil _ _)] at h
      rw [scanSegments_cons _ _ (List.cons_ne_nil _ _)]
      by_cases hl : maxScanTokenSize ≤ byteLen seg
      · right
        simp [hl]
      · simp only [hl, if_false]
        cases k with
        | zero =>
          left
          simpa using h
        | succ j =>
          simp only [List.getElem?_cons_succ] at h
          rcases ih j h with h1 | ⟨h1, h2⟩
          · left
            simpa using h1
          · right
            exact ⟨by simpa using h1, h2⟩

/-- When every segment fits the buffer the scanner delivers exactly the lines of the
text. -/
theorem scanSegments_short (segs : List GoString)
    (h : ∀ seg ∈ segs, byteLen seg < maxScanTokenSize) :
    scanSegments segs = ⟨segmentsToLines segs, none⟩ := by
  induction segs with
  | nil => rfl
  | cons seg more ih =>
    have hseg : ¬ maxScanTokenSize ≤ byteLen seg := by
      have := h seg (List.mem_cons_self _ _)
      omega
    cases more with
    | nil =>
      simp only [scanSegments, segmentsToLines, hseg, if_false]
      split <;> rfl
    | cons m ms =>
      rw [scanSegments_cons _ _ (List.cons_ne_nil _ _),
        segmentsToLines_cons _ _ (List.cons_ne_nil _ _), if_neg hseg,
        ih (fun s hs => h s (List.mem_cons_of_mem _ hs))]

/-- A first token that is not an integer makes `loadOrder` fail. -/
theorem loadLoop_bad_index (scanErr : Option ScanError) (tokens : List GoString)
    (l : GoString) (h : tokens[0]? = some l) (hbad : Atoi l = none) :
    loadLoop scanErr tokens 0 [] 0 0 = loadFailure .convertingIndex := by
  cases tokens with
  | nil => simp at h
  | cons t ts =>
    simp only [List.getElem?_cons_zero, Option.some.injEq] at h
    subst h
    simp only [loadLoop, if_true, hbad]

/-- A second token that is not an integer makes `loadOrder` fail. -/
theorem loadLoop_bad_mode (scanErr : Option ScanError) (tokens : List GoString)
    (l : GoString) (h : tokens[1]? = some l) (hbad : Atoi l = none) :
    ∃ e, loadLoop scanErr tokens 0 [] 0 0 = loadFailure e := by
  cases tokens with
  | nil => simp at h
  | cons t ts =>
    cases ts with
    | nil => simp at h
    | cons u us =>
      simp only [List.getElem?_cons_succ, List.getElem?_cons_zero, Option.some.injEq] at h
      subst h
      cases h0 : Atoi t with
      | none =>
        refine ⟨.convertingIndex, ?_⟩
        simp only [loadLoop, if_true, h0]
      | some v =>
        refine ⟨.convertingMode, ?_⟩
        simp only [loadLoop, if_true, h0, Nat.zero_add, Nat.succ_ne_zero, if_false, hbad]

/-- The scanner stopping within the first two lines makes `loadOrder` fail. -/
theorem loadLoop_scan_error (tokens : List GoString) (e : ScanError)
    (h : tokens.length ≤ 1) : ∃ e1, loadLoop (some e) tokens 0 [] 0 0 = loadFailure e1 := by
  cases tokens with
  | nil =>
    refine ⟨.scan e, ?_⟩
    simp only [loadLoop]
  | cons t ts =>
    cases ts with
    | cons u us =>
      simp only [List.length_cons] at h
      omega
    | nil =>
      cases h0 : Atoi t with
      | none =>
        refine ⟨.convertingIndex, ?_⟩
        simp only [loadLoop, if_true, h0]
      | some v =>
        refine ⟨.scan e, ?_⟩
        simp only [loadLoop, if_true, h0]

/-- A first or second line that is not an integer makes `loadOrder` fail on the text. -/
theorem loadOrderText_bad_header (text : GoString)
    (h : (∃ l, (textLines text)[0]? = some l ∧ Atoi l = none) ∨
      (∃ l, (textLines text)[1]? = some l ∧ Atoi l = none)) :
    ∃ e, loadOrderText text = loadFailure e := by
  unfold loadOrderText scanLines
  unfold textLines at h
  rcases h with ⟨l, hl, hbad⟩ | ⟨l, hl, hbad⟩
  · rcases scanSegments_line _ 0 l hl with h1 | ⟨h1, h2⟩
    · exact ⟨_, loadLoop_bad_index _ _ l h1 hbad⟩
    · simp only [h2]
      exact loadLoop_scan_error _ _ (by omega)
  · rcases scanSegments_line _ 1 l hl with h1 | ⟨h1, h2⟩
    · exact loadLoop_bad_mode _ _ l h1 hbad
    · simp only [h2]
      exact loadLoop_scan_error _ _ h1

/-- Two integer header lines and no overlong segment: `loadOrder` succeeds on the text. -/
theorem loadOrderText_good_header (text l0 l1 : GoString) (i m : Int)
    (h0 : (textLines text)[0]? = some l0) (h1 : (textLines text)[1]? = some l1)
    (hi : Atoi l0 = some i) (hm : Atoi l1 = some m)
    (hshort : ∀ seg ∈ splitNewline text, byteLen seg < maxScanTokenSize) :
    loadOrderText text = ⟨(textLines text).drop 2, i, m, none⟩ := by
  unfold loadOrderText scanLines
  rw [scanSegments_short _ hshort]
  unfold textLines at h0 h1 ⊢
  cases hlines : segmentsToLines (splitNewline text) with
  | nil => simp [hlines] at h0
  | cons t ts =>
    cases ts with
    | nil => simp [hlines] at h1
    | cons u us =>
      rw [hlines] at h0 h1
      simp only [List.getElem?_cons_succ, List.getElem?_cons_zero, Option.some.injEq] at h0 h1
      subst h0 h1
      simp only [loadLoop, if_true, hi, hm, Nat.zero_add, Nat.succ_ne_zero, if_false]
      rw [loadLoop_paths _ _ _ _ (by omega)]
      simp

/-- A text of two integer lines followed by at least 65536 letters without a newline. -/
theorem loadOrderText_long_tail (n : Nat) (h : maxScanTokenSize ≤ n) :
    (textLines ('0' :: '\n' :: '0' :: '\n' :: List.replicate n 'a'))[0]? = some ['0'] ∧
      (textLines ('0' :: '\n' :: '0' :: '\n' :: List.replicate n 'a'))[1]? = some ['0'] ∧
      loadOrderText ('0' :: '\n' :: '0' :: '\n' :: List.replicate n 'a') =
        loadFailure (.scan .tooLong) := by
  have hsplit : splitNewline ('0' :: '\n' :: '0' :: '\n' :: List.replicate n 'a') =
      [['0'], ['0'], List.replicate n 'a'] := by
    have e : ('0' :: '\n' :: '0' :: '\n' :: List.replicate n 'a') =
        ['0'] ++ '\n' :: (['0'] ++ '\n' :: List.replicate n 'a') := rfl
    rw [e, splitNewline_append _ _ (by decide), splitNewline_append _ _ (by decide),
      splitNewline_of_not_mem _ (newline_not_mem_replicate n)]
  have hne : List.replicate n 'a' ≠ [] := by
    intro e
    have h1 := byteLen_replicate n
    rw [e] at h1
    have h2 : 0 < maxScanTokenSize := by decide
    simp only [byteLen] at h1
    omega
  have hlong : maxScanTokenSize ≤ byteLen (List.replicate n 'a') := by
    rw [byteLen_replicate]
    exact h
  have hd : dropCR ['0'] = ['0'] := by decide
  have hs : ¬ maxScanTokenSize ≤ byteLen ['0'] := by decide
  have ha : Atoi ['0'] = some 0 := by decide
  refine ⟨?_, ?_, ?_⟩
  · rw [textLines, hsplit]
    simp only [segmentsToLines, hd, List.getElem?_cons_zero]
  · rw [textLines, hsplit]
    simp only [segmentsToLines, hd, List.getElem?_cons_succ, List.getElem?_cons_zero]
  · rw [loadOrderText, scanLines, hsplit]
    simp only [scanSegments, hs, if_false, hne, hlong, if_true, hd, loadLoop, ha,
      Nat.zero_add, Nat.succ_ne_zero]

/-! ## Claims on corrupt state files -/

/-- C5: when the first line of the state file is not an integer, startup behaves as though
there were no state file: the state entering the playback loop and the state file it leaves
are those of a start without a state file, with the same files, mode, random source and save
outcome; that state has position 0 and a rearrangement of the discovered files as its order,
and the loop is entered whenever a file was discovered and the save succeeds. -/
theorem corrupt_first_line_as_absent (text : GoString) (files : List GoString)
    (shuffleFlag : Int) (rnd : Nat → Nat) (save : SaveOutcome)
    (h : ∃ l, (textLines text)[0]? = some l ∧ Atoi l = none) :
    (startup files shuffleFlag (.present text) rnd save).entered =
        (startup files shuffleFlag .absent rnd save).entered ∧
      (∀ s f, (startup files shuffleFlag (.present text) rnd save).entered = some (s, f) →
        s.currentIndex = 0 ∧ s.playOrder.Perm files ∧
          f = .present (saveOrderText s.playOrder 0 shuffleFlag)) ∧
      (files ≠ [] → (startup files shuffleFlag (.present text) rnd .ok).entered ≠ none) := by
  have hfail : (loadOrder (.present text)).err ≠ none := by
    obtain ⟨e, he⟩ := loadOrderText_bad_header text (Or.inl h)
    simp only [loadOrder, he, loadFailure]
    exact fun c => by cases c
  have hcond : (loadExisting shuffleFlag (.present text)).playOrder = [] ∨
      (loadExisting shuffleFlag (.present text)).playOrder.length ≠ files.length :=
    Or.inl (loadExisting_error shuffleFlag _ hfail)
  have habs : (loadExisting shuffleFlag .absent).playOrder = [] ∨
      (loadExisting shuffleFlag .absent).playOrder.length ≠ files.length :=
    Or.inl rfl
  refine ⟨?_, fun s f he => startup_fresh_entered files shuffleFlag _ rnd save hcond s f he,
    fun hfiles => startup_fresh_enters files shuffleFlag _ rnd hfiles hcond⟩
  by_cases hfiles : files = []
  · subst hfiles
    simp [startup, Startup.entered]
  · by_cases hsave : save = .ok
    · subst hsave
      rw [startup_fresh files shuffleFlag _ rnd hfiles hcond,
        startup_fresh files shuffleFlag _ rnd hfiles habs]
    · rw [startup_fresh_save_failed files shuffleFlag _ rnd save hsave hfiles hcond,
        startup_fresh_save_failed files shuffleFlag _ rnd save hsave hfiles habs]

/-- Witness for C5: a state file starting with the line "x". -/
theorem corrupt_first_line_as_absent_witness :
    (∃ l, (textLines "x\n0\n/m/a.mp3\n".toList)[0]? = some l ∧ Atoi l = none) ∧
      (startup ["/m/a.mp3".toList] 0 (.present "x\n0\n/m/a.mp3\n".toList) (fun _ => 0)
          .ok).entered =
        (startup ["/m/a.mp3".toList] 0 .absent (fun _ => 0) .ok).entered :=
  ⟨⟨['x'], by decide, by decide⟩,
    (corrupt_first_line_as_absent "x\n0\n/m/a.mp3\n".toList ["/m/a.mp3".toList] 0
      (fun _ => 0) .ok ⟨['x'], by decide, by decide⟩).1⟩

/-- C10 (as amended): when the first or the second line of the state file is not an integer,
`loadOrder` returns an error together with a nil order, position 0 and mode 0; when the
first two lines are integers and no line has 65536 bytes or more, it returns no error, the
two integers, and the remaining lines as the order. -/
theorem loadOrder_header_fields (text : GoString) :
    (((∃ l, (textLines text)[0]? = some l ∧ Atoi l = none) ∨
        (∃ l, (textLines text)[1]? = some l ∧ Atoi l = none)) →
      ∃ e, loadOrder (.present text) = ⟨[], 0, 0, some e⟩) ∧
    (∀ l0 l1 i m, (textLines text)[0]? = some l0 → (textLines text)[1]? = some l1 →
      Atoi l0 = some i → Atoi l1 = some m →
      (∀ seg ∈ splitNewline text, byteLen seg < maxScanTokenSize) →
      loadOrder (.present text) = ⟨(textLines text).drop 2, i, m, none⟩) :=
  ⟨fun h => loadOrderText_bad_header text h,
    fun l0 l1 i m h0 h1 hi hm hshort =>
      loadOrderText_good_header text l0 l1 i m h0 h1 hi hm hshort⟩

/-- Witness for C10: a mode line "y" is rejected, and a well-formed file is accepted. -/
theorem loadOrder_header_fields_witness :
    (∃ e, loadOrder (.present "3\ny\n/m/a.mp3\n".toList) = ⟨[], 0, 0, some e⟩) ∧
      loadOrder (.present "3\n1\n/m/a.mp3\n".toList) =
        ⟨(textLines "3\n1\n/m/a.mp3\n".toList).drop 2, 3, 1, none⟩ :=
  ⟨(loadOrder_header_fields "3\ny\n/m/a.mp3\n".toList).1
      (Or.inr ⟨['y'], by decide, by decide⟩),
    (loadOrder_header_fields "3\n1\n/m/a.mp3\n".toList).2 ['3'] ['1'] 3 1
      (by decide) (by decide) (by decide) (by decide) (by decide)⟩

/-- C10 as stated fails: the first two lines are the integers 0 and 0, and `loadOrder`
returns an error, because the third line has 65536 bytes. -/
theorem header_ok_counterexample :
    (textLines ('0' :: '\n' :: '0' :: '\n' :: List.replicate 65536 'a'))[0]? = some ['0'] ∧
      (textLines ('0' :: '\n' :: '0' :: '\n' :: List.replicate 65536 'a'))[1]? = some ['0'] ∧
      Atoi ['0'] = some 0 ∧
      loadOrder (.present ('0' :: '\n' :: '0' :: '\n' :: List.replicate 65536 'a')) =
        ⟨[], 0, 0, some (.scan .tooLong)⟩ :=
  ⟨(loadOrderText_long_tail 65536 (by decide)).1,
    (loadOrderText_long_tail 65536 (by decide)).2.1, by decide,
    (loadOrderText_long_tail 65536 (by decide)).2.2⟩


/-! ## The playback loop -/

theorem wrapAround_in_bounds (shuffleFlag : Int) (rnd : Nat → Nat) (s : LoopState)
    (h : s.currentIndex < (s.playOrder.length : Int)) : wrapAround shuffleFlag rnd s = s := by
  unfold wrapAround
  rw [if_neg (by omega)]

theorem wrapAround_past_end (shuffleFlag : Int) (rnd : Nat → Nat) (s : LoopState)
    (h : (s.playOrder.length : Int) ≤ s.currentIndex) :
    wrapAround shuffleFlag rnd s =
      ⟨if shuffleFlag = 1 then Shuffle rnd s.playOrder else s.playOrder, 0⟩ := by
  unfold wrapAround
  rw [if_pos (by omega)]

/-- After the wraparound check the order is a rearrangement of the old one. -/
theorem wrapAround_perm (shuffleFlag : Int) (rnd : Nat → Nat) (s : LoopState) :
    (wrapAround shuffleFlag rnd s).playOrder.Perm s.playOrder := by
  unfold wrapAround
  split
  · exact freshOrder_perm shuffleFlag rnd s.playOrder
  · exact List.Perm.refl _

/-- After the wraparound check the index is within the order, when the order is not empty
and the index was not negative. -/
theorem wrapAround_index (shuffleFlag : Int) (rnd : Nat → Nat) (s : LoopState)
    (hne : s.playOrder ≠ []) (h0 : 0 ≤ s.currentIndex) :
    0 ≤ (wrapAround shuffleFlag rnd s).currentIndex ∧
      (wrapAround shuffleFlag rnd s).currentIndex <
        ((wrapAround shuffleFlag rnd s).playOrder.length : Int) := by
  have hlen := (wrapAround_perm shuffleFlag rnd s).length_eq
  have hpos : 0 < s.playOrder.length := List.length_pos.2 hne
  rw [hlen]
  unfold wrapAround
  split
  · simp only [le_refl, true_and]
    omega
  · exact ⟨h0, by omega⟩

theorem indexAt_in_bounds (playOrder : List GoString) (currentIndex : Int)
    (h0 : 0 ≤ currentIndex) (hlt : currentIndex < (playOrder.length : Int)) :
    ∃ currentFile, indexAt playOrder currentIndex = some currentFile ∧
      playOrder[currentIndex.toNat]? = some currentFile := by
  have hn : currentIndex.toNat < playOrder.length := by omega
  refine ⟨playOrder[currentIndex.toNat], ?_, List.getElem?_eq_getElem hn⟩
  unfold indexAt
  rw [if_neg (by omega), List.getElem?_eq_getElem hn]

/-- One pass of the loop from a state with a non-empty order and a non-negative index: the
track read after the wraparound check is played, and the index is incremented and saved. -/
theorem loopIteration_eq (shuffleFlag : Int) (env : IterEnv) (s : LoopState)
    (file : StateFile) (hne : s.playOrder ≠ []) (h0 : 0 ≤ s.currentIndex) :
    ∃ r, loopIteration shuffleFlag env s file = some r ∧
      (wrapAround shuffleFlag env.rnd s).playOrder[
        (wrapAround shuffleFlag env.rnd s).currentIndex.toNat]? = some r.currentFile ∧
      r.state = ⟨(wrapAround shuffleFlag env.rnd s).playOrder,
        (wrapAround shuffleFlag env.rnd s).currentIndex + 1⟩ ∧
      r.file = (saveOrder env.save file (wrapAround shuffleFlag env.rnd s).playOrder
        ((wrapAround shuffleFlag env.rnd s).currentIndex + 1) shuffleFlag).1 := by
  obtain ⟨hlo, hhi⟩ := wrapAround_index shuffleFlag env.rnd s hne h0
  obtain ⟨currentFile, hidx, hget⟩ := indexAt_in_bounds _ _ hlo hhi
  simp only [loopIteration, hidx]
  exact ⟨_, rfl, hget, rfl, rfl⟩

/-- C6 (as amended): for every state with a non-empty order and a non-negative position, and
for either player outcome, one pass of the loop calls `saveOrder` exactly once, with the
position the track was read at (the position after the wraparound check) plus 1, with the
order the track was read from and with the requested mode, and a successful save leaves
exactly that in the state file.  The order saved is the order before the pass unless the
pass wrapped around in Shuffled mode, and the position saved is the old position plus 1
unless the pass wrapped around. -/
theorem advance_persists_once (shuffleFlag : Int) (env : IterEnv) (order : List GoString)
    (position : Int) (file : StateFile) (hne : order ≠ []) (h0 : 0 ≤ position) :
    ∃ r, loopIteration shuffleFlag env ⟨order, position⟩ file = some r ∧
      r.state = ⟨(wrapAround shuffleFlag env.rnd ⟨order, position⟩).playOrder,
        (wrapAround shuffleFlag env.rnd ⟨order, position⟩).currentIndex + 1⟩ ∧
      r.file = (saveOrder env.save file r.state.playOrder r.state.currentIndex shuffleFlag).1 ∧
      (env.save = .ok →
        r.file = .present (saveOrderText r.state.playOrder r.state.currentIndex shuffleFlag)) ∧
      (position < (order.length : Int) →
        r.state = ⟨order, position + 1⟩ ∧ order[position.toNat]? = some r.currentFile) ∧
      (shuffleFlag ≠ 1 → r.state.playOrder = order) := by
  obtain ⟨r, hr, hget, hstate, hfile⟩ :=
    loopIteration_eq shuffleFlag env ⟨order, position⟩ file hne h0
  refine ⟨r, hr, hstate, ?_, ?_, ?_, ?_⟩
  · rw [hfile, hstate]
  · intro hok
    rw [hfile, hstate, hok]
    rfl
  · intro hlt
    rw [wrapAround_in_bounds shuffleFlag env.rnd ⟨order, position⟩ hlt] at hstate hget
    exact ⟨hstate, hget⟩
  · intro hmode
    rw [hstate]
    simp only [wrapAround, hmode, if_false]
    split <;> rfl

/-- Witness for C6: position 0 of two tracks, the player failing. -/
theorem advance_persists_once_witness :
    (["/m/a.mp3".toList, "/m/b.mp3".toList] ≠ [] ∧ (0 : Int) ≤ 0) ∧
      (loopIteration 0 ⟨fun _ => 0, false, .ok⟩
          ⟨["/m/a.mp3".toList, "/m/b.mp3".toList], 0⟩ .absent).map (fun r => r.file) =
        some (.present (saveOrderText ["/m/a.mp3".toList, "/m/b.mp3".toList] 1 0)) := by
  refine ⟨by decide, ?_⟩
  obtain ⟨r, hr, _, _, hok, hin, _⟩ :=
    advance_persists_once 0 ⟨fun _ => 0, false, .ok⟩ ["/m/a.mp3".toList, "/m/b.mp3".toList] 0
      .absent (by decide) (by decide)
  rw [hr, Option.map_some', hok rfl, (hin (by decide)).1]
  rfl

/-- C6 as stated fails at a wraparound in Shuffled mode: from the order a, b at position 2
the pass saves the order b, a at position 1, not the order a, b at position 3. -/
theorem advance_counterexample :
    (loopIteration 1 ⟨fun _ => 0, true, .ok⟩ ⟨[['a'], ['b']], 2⟩ .absent).map
        (fun r => r.file) = some (.present (saveOrderText [['b'], ['a']] 1 1)) ∧
      saveOrderText [['b'], ['a']] 1 1 ≠ saveOrderText [['a'], ['b']] 3 1 := by
  decide

/-- C7: in a mode other than Shuffled (in particular Sequential, 0), from a non-empty order
and a position at or past its end, one pass of the loop resets the position to 0, plays the
first element of the order, and leaves the order as it was. -/
theorem wraparound_sequential (shuffleFlag : Int) (env : IterEnv) (order : List GoString)
    (position : Int) (file : StateFile) (hmode : shuffleFlag ≠ 1) (hne : order ≠ [])
    (hpos : (order.length : Int) ≤ position) :
    wrapAround shuffleFlag env.rnd ⟨order, position⟩ = ⟨order, 0⟩ ∧
      ∃ r, loopIteration shuffleFlag env ⟨order, position⟩ file = some r ∧
        order.head? = some r.currentFile ∧ r.state.playOrder = order := by
  have hw : wrapAround shuffleFlag env.rnd ⟨order, position⟩ = ⟨order, 0⟩ := by
    rw [wrapAround_past_end shuffleFlag env.rnd ⟨order, position⟩ hpos]
    simp only [hmode, if_false]
  have h0 : (0 : Int) ≤ position := by omega
  obtain ⟨r, hr, hget, hstate, _⟩ :=
    loopIteration_eq shuffleFlag env ⟨order, position⟩ file hne h0
  rw [hw] at hget hstate
  refine ⟨hw, r, hr, ?_, ?_⟩
  · rw [List.head?_eq_getElem?]
    exact hget
  · rw [hstate]

/-- Witness for C7: the order A, B, C at position 3. -/
theorem wraparound_sequential_witness :
    ((0 : Int) ≠ 1 ∧ (([['A'], ['B'], ['C']] : List GoString).length : Int) ≤ 3) ∧
      wrapAround 0 (fun _ => 0) ⟨[['A'], ['B'], ['C']], 3⟩ = ⟨[['A'], ['B'], ['C']], 0⟩ :=
  ⟨by decide,
    (wraparound_sequential 0 ⟨fun _ => 0, true, .ok⟩ [['A'], ['B'], ['C']] 3 .absent
      (by decide) (by decide) (by decide)).1⟩

/-- C8: in Shuffled mode, from a non-empty order and a position at or past its end, one pass
of the loop resets the position to 0 and replaces the order by the result of the shuffle,
which for every random source is a rearrangement of the old order: it has the same length
and holds every element as many times as before; the track played is the first element of
the new order. -/
theorem wraparound_shuffled (env : IterEnv) (order : List GoString) (position : Int)
    (file : StateFile) (hne : order ≠ []) (hpos : (order.length : Int) ≤ position) :
    wrapAround 1 env.rnd ⟨order, position⟩ = ⟨Shuffle env.rnd order, 0⟩ ∧
      (Shuffle env.rnd order).Perm order ∧
      (Shuffle env.rnd order).length = order.length ∧
      (∀ p, (Shuffle env.rnd order).countP (fun q => decide (q = p)) =
        order.countP (fun q => decide (q = p))) ∧
      ∃ r, loopIteration 1 env ⟨order, position⟩ file = some r ∧
        (Shuffle env.rnd order).head? = some r.currentFile ∧
        r.state.playOrder = Shuffle env.rnd order := by
  have hw : wrapAround 1 env.rnd ⟨order, position⟩ = ⟨Shuffle env.rnd order, 0⟩ := by
    rw [wrapAround_past_end 1 env.rnd ⟨order, position⟩ hpos]
    simp only [if_true]
  have hperm := Shuffle_perm env.rnd order
  have h0 : (0 : Int) ≤ position := by omega
  obtain ⟨r, hr, hget, hstate, _⟩ := loopIteration_eq 1 env ⟨order, position⟩ file hne h0
  rw [hw] at hget hstate
  refine ⟨hw, hperm, hperm.length_eq, fun p => hperm.countP_eq _, r, hr, ?_, ?_⟩
  · rw [List.head?_eq_getElem?]
    exact hget
  · rw [hstate]

/-- Witness for C8: the order A, B, C at position 3. -/
theorem wraparound_shuffled_witness :
    ((([['A'], ['B'], ['C']] : List GoString).length : Int) ≤ 3) ∧
      wrapAround 1 (fun _ => 0) ⟨[['A'], ['B'], ['C']], 3⟩ =
        ⟨Shuffle (fun _ => 0) [['A'], ['B'], ['C']], 0⟩ :=
  ⟨by decide,
    (wraparound_shuffled ⟨fun _ => 0, true, .ok⟩ [['A'], ['B'], ['C']] 3 .absent
      (by decide) (by decide)).1⟩

/-- C9 fails on the code: a state file whose first line is -1, with the requested mode and as
many paths as discovered files, is reused as it is, and the first pass of the loop panics on
the read `playOrder[currentIndex]`. -/
theorem negative_position_panics :
    startup ["/m/a.mp3".toList] 0 (.present "-1\n0\n/m/a.mp3\n".toList) (fun _ => 0) .ok =
        .enter ⟨["/m/a.mp3".toList], -1⟩ (.present "-1\n0\n/m/a.mp3\n".toList) ∧
      loopIteration 0 ⟨fun _ => 0, true, .ok⟩ ⟨["/m/a.mp3".toList], -1⟩
        (.present "-1\n0\n/m/a.mp3\n".toList) = none := by
  decide

/-! ## The serialised layout -/

theorem natDigitChar_eq (d : Nat) (h : d < 10) : Nat.digitChar d = digitChar d := by
  interval_cases d <;> rfl

theorem toDigitsCore_eq (fuel n : Nat) (ds : List Char) :
    Nat.toDigitsCore 10 fuel n ds = (digitsRev fuel n).reverse ++ ds := by
  induction fuel generalizing n ds with
  | zero => rfl
  | succ f ih =>
    simp only [Nat.toDigitsCore, digitsRev]
    rw [natDigitChar_eq _ (Nat.mod_lt _ (by decide))]
    by_cases h0 : n / 10 = 0
    · simp [h0]
    · simp only [h0, if_false]
      rw [ih]
      simp

/-- The digits written for a natural number are those of its decimal numeral. -/
theorem formatNat_eq_toDigits (n : Nat) : formatNat n = Nat.toDigits 10 n := by
  unfold formatNat Nat.toDigits
  rw [toDigitsCore_eq]
  simp

/-- The text written for an integer is its decimal numeral, with a minus sign when it is
negative. -/
theorem formatInt_eq_toString (n : Int) : formatInt n = (toString n).toList := by
  cases n with
  | ofNat m =>
    have h : ¬ (Int.ofNat m < 0) := Int.not_lt.2 (Int.ofNat_nonneg m)
    simp only [formatInt, h, if_false, Int.natAbs_ofNat]
    rw [formatNat_eq_toDigits]
    rfl
  | negSucc m =>
    have h : Int.negSucc m < 0 := Int.negSucc_lt_zero m
    simp only [formatInt, h, if_true, Int.natAbs_negSucc]
    rw [formatNat_eq_toDigits]
    rfl

theorem writeLines_eq_flatten (order : List GoString) :
    writeLines order = (order.map (fun p => p ++ ['\n'])).flatten := by
  induction order with
  | nil => rfl
  | cons p ps ih => simp [writeLines, ih]

theorem countP_newline_writeLines (order : List GoString) (h : ∀ p ∈ order, '\n' ∉ p) :
    (writeLines order).countP (fun c => decide (c = '\n')) = order.length := by
  induction order with
  | nil => rfl
  | cons p ps ih =>
    have hp : p.countP (fun c => decide (c = '\n')) = 0 := by
      rw [List.countP_eq_zero]
      intro c hc
      have : c ≠ '\n' := fun e => h p (List.mem_cons_self _ _) (e ▸ hc)
      simpa using this
    simp only [writeLines, List.countP_append, List.countP_cons, hp, List.length_cons,
      ih (fun q hq => h q (List.mem_cons_of_mem _ hq))]
    simp

theorem countP_newline_formatInt (n : Int) :
    (formatInt n).countP (fun c => decide (c = '\n')) = 0 := by
  rw [List.countP_eq_zero]
  intro c hc
  have := (mem_formatInt n c hc).1
  simpa using this

/-- C11: for every order, position and mode, the text a successful `saveOrder` leaves in
the file is exactly the decimal numeral of the position and a newline, the decimal numeral
of the mode and a newline, and then every path of the order, in order and verbatim, each
followed by a newline; when no path contains a newline the text has exactly
`len(order) + 2` newline characters. -/
theorem saveOrder_layout (order : List GoString) (position mode : Int) (file : StateFile) :
    (saveOrder .ok file order position mode).1 =
        .present ((toString position).toList ++ ['\n'] ++ (toString mode).toList ++ ['\n'] ++
          (order.map (fun p => p ++ ['\n'])).flatten) ∧
      ((∀ p ∈ order, '\n' ∉ p) →
        (saveOrderText order position mode).countP (fun c => decide (c = '\n')) =
          order.length + 2) := by
  constructor
  · simp only [saveOrder, saveOrderText, formatInt_eq_toString, writeLines_eq_flatten]
    simp
  · intro h
    simp only [saveOrderText, List.countP_append, List.countP_cons, countP_newline_formatInt,
      countP_newline_writeLines order h]
    simp

/-- Witness for C11: two paths at position 10 in mode 1 give a text with four newlines. -/
theorem saveOrder_layout_witness :
    (∀ p ∈ ["/m/a.mp3".toList, "/m/b.mp3".toList], '\n' ∉ p) ∧
      (saveOrderText ["/m/a.mp3".toList, "/m/b.mp3".toList] 10 1).countP
          (fun c => decide (c = '\n')) =
        ["/m/a.mp3".toList, "/m/b.mp3".toList].length + 2 :=
  ⟨by decide,
    (saveOrder_layout ["/m/a.mp3".toList, "/m/b.mp3".toList] 10 1 .absent).2 (by decide)⟩

/-! ## Fresh state, and runs of the loop -/

/-- C13: whenever reconciliation does not reuse a loaded order (`playOrder` is nil or has
another length than the discovered files), the state entering the loop has position 0 and
an order that is a rearrangement of the discovered files; in every mode other than Shuffled,
in particular in Sequential mode, the order is the discovered list itself, in discovery
order, and only in Shuffled mode (1) it is the result of the shuffle; the loop is entered
with this state whenever a file was discovered and the save succeeds. -/
theorem fresh_state_construction (files : List GoString) (shuffleFlag : Int)
    (file : StateFile) (rnd : Nat → Nat) (save : SaveOutcome)
    (hfresh : (loadExisting shuffleFlag file).playOrder = [] ∨
      (loadExisting shuffleFlag file).playOrder.length ≠ files.length) :
    (∀ s f, (startup files shuffleFlag file rnd save).entered = some (s, f) →
        s.currentIndex = 0 ∧ s.playOrder.Perm files ∧
          (shuffleFlag ≠ 1 → s.playOrder = files) ∧
          (shuffleFlag = 1 → s.playOrder = Shuffle rnd files)) ∧
      (files ≠ [] → (startup files shuffleFlag file rnd .ok).entered ≠ none) := by
  refine ⟨?_, fun hfiles => startup_fresh_enters files shuffleFlag file rnd hfiles hfresh⟩
  intro s f he
  by_cases hfiles : files = []
  · subst hfiles
    simp [startup, Startup.entered] at he
  · by_cases hsave : save = .ok
    · subst hsave
      rw [startup_fresh files shuffleFlag file rnd hfiles hfresh] at he
      simp only [Startup.entered, Option.some.injEq, Prod.mk.injEq] at he
      obtain ⟨hs, _⟩ := he
      subst hs
      refine ⟨rfl, freshOrder_perm shuffleFlag rnd files, ?_, ?_⟩
      · intro hmode
        simp only [hmode, if_false]
      · intro hmode
        simp only [hmode, if_true]
    · rw [startup_fresh_save_failed files shuffleFlag file rnd save hsave hfiles hfresh] at he
      cases he

/-- Witness for C13: no state file, two discovered files, Sequential mode. -/
theorem fresh_state_construction_witness :
    ((loadExisting 0 .absent).playOrder = [] ∨
        (loadExisting 0 .absent).playOrder.length ≠
          ["/m/a.mp3".toList, "/m/b.mp3".toList].length) ∧
      (startup ["/m/a.mp3".toList, "/m/b.mp3".toList] 0 .absent (fun _ => 0) .ok).entered ≠
        none :=
  ⟨by decide,
    (fresh_state_construction ["/m/a.mp3".toList, "/m/b.mp3".toList] 0 .absent (fun _ => 0)
      .ok (by decide)).2 (by decide)⟩

/-- One pass from a position inside the order: the track at that position is played, the
order is kept and the position moves on by one. -/
theorem loopIteration_in_bounds (shuffleFlag : Int) (env : IterEnv) (order : List GoString)
    (position : Int) (file : StateFile) (h0 : 0 ≤ position)
    (hlt : position < (order.length : Int)) :
    ∃ r, loopIteration shuffleFlag env ⟨order, position⟩ file = some r ∧
      order[position.toNat]? = some r.currentFile ∧ r.state = ⟨order, position + 1⟩ := by
  have hne : order ≠ [] := by
    intro e
    rw [e] at hlt
    simp only [List.length_nil, Nat.cast_zero] at hlt
    omega
  obtain ⟨r, hr, hget, hstate, _⟩ :=
    loopIteration_eq shuffleFlag env ⟨order, position⟩ file hne h0
  rw [wrapAround_in_bounds shuffleFlag env.rnd ⟨order, position⟩ hlt] at hget hstate
  exact ⟨r, hr, hget, hstate⟩

/-- Passes from position `k` to the end of the order play the rest of the order in
sequence and keep the order. -/
theorem runLoop_rest_of_pass (shuffleFlag : Int) (order : List GoString)
    (envs : List IterEnv) (k : Nat) (file : StateFile) (hk : envs.length + k = order.length) :
    ∃ rs, runLoop shuffleFlag envs ⟨order, (k : Int)⟩ file = some rs ∧
      rs.map (fun r => r.currentFile) = order.drop k ∧
      ∀ r ∈ rs, r.state.playOrder = order := by
  induction envs generalizing k file with
  | nil =>
    refine ⟨[], rfl, ?_, ?_⟩
    · simp only [List.length_nil, Nat.zero_add] at hk
      simp [hk]
    · intro r hr
      cases hr
  | cons env rest ih =>
    simp only [List.length_cons] at hk
    have hlt : k < order.length := by omega
    obtain ⟨r, hr, hget, hstate⟩ :=
      loopIteration_in_bounds shuffleFlag env order (k : Int) file (by omega) (by omega)
    simp only [Int.toNat_ofNat] at hget
    obtain ⟨rs, hrs, hmap, hall⟩ := ih (k + 1) r.file (by omega)
    have hrun : runLoop shuffleFlag (env :: rest) ⟨order, (k : Int)⟩ file = some (r :: rs) := by
      simp only [runLoop, hr, hstate]
      have e : ((k : Int) + 1) = ((k + 1 : Nat) : Int) := by omega
      rw [e, hrs]
    refine ⟨r :: rs, hrun, ?_, ?_⟩
    · rw [List.map_cons, hmap, List.drop_eq_getElem_cons hlt]
      rw [List.getElem?_eq_getElem hlt] at hget
      simp only [Option.some.injEq] at hget
      rw [hget]
    · intro x hx
      rcases List.mem_cons.1 hx with rfl | hx
      · rw [hstate]
      · exact hall x hx

/-- C16: for every state with `0 <= position < len(order)`, in every mode, one pass of the
loop plays `order[position]`, leaves the order as it is and yields `position + 1`; and from
position 0 the next `len(order)` passes play the elements of the order one after the other
in their sequence, the order staying the same throughout. -/
theorem order_fixed_within_pass (shuffleFlag : Int) (order : List GoString)
    (file : StateFile) :
    (∀ (env : IterEnv) (position : Int), 0 ≤ position → position < (order.length : Int) →
      ∃ r, loopIteration shuffleFlag env ⟨order, position⟩ file = some r ∧
        order[position.toNat]? = some r.currentFile ∧ r.state = ⟨order, position + 1⟩) ∧
    (∀ envs : List IterEnv, envs.length = order.length →
      ∃ rs, runLoop shuffleFlag envs ⟨order, 0⟩ file = some rs ∧
        rs.map (fun r => r.currentFile) = order ∧ ∀ r ∈ rs, r.state.playOrder = order) := by
  refine ⟨fun env position h0 hlt =>
    loopIteration_in_bounds shuffleFlag env order position file h0 hlt, ?_⟩
  intro envs hlen
  have h := runLoop_rest_of_pass shuffleFlag order envs 0 file (by omega)
  simpa using h

/-- Witness for C16: in Shuffled mode the order A, B, C is played as A, B, C in three
passes from position 0, and the pass at position 1 plays B. -/
theorem order_fixed_within_pass_witness :
    (∃ r, loopIteration 1 ⟨fun _ => 0, true, .ok⟩ ⟨[['A'], ['B'], ['C']], 1⟩ .absent = some r ∧
        [['A'], ['B'], ['C']][(1 : Int).toNat]? = some r.currentFile ∧
        r.state = ⟨[['A'], ['B'], ['C']], 1 + 1⟩) ∧
      ∃ rs, runLoop 1 [⟨fun _ => 0, true, .ok⟩, ⟨fun _ => 0, false, .ok⟩,
          ⟨fun _ => 0, true, .createFailed⟩] ⟨[['A'], ['B'], ['C']], 0⟩ .absent = some rs ∧
        rs.map (fun r => r.currentFile) = [['A'], ['B'], ['C']] ∧
        ∀ r ∈ rs, r.state.playOrder = [['A'], ['B'], ['C']] :=
  ⟨(order_fixed_within_pass 1 [['A'], ['B'], ['C']] .absent).1 ⟨fun _ => 0, true, .ok⟩ 1
      (by decide) (by decide),
    (order_fixed_within_pass 1 [['A'], ['B'], ['C']] .absent).2
      [⟨fun _ => 0, true, .ok⟩, ⟨fun _ => 0, false, .ok⟩, ⟨fun _ => 0, true, .createFailed⟩]
      (by decide)⟩

/-- The variables after a pass do not depend on the player or on the save. -/
theorem loopIteration_state (shuffleFlag : Int) (env : IterEnv) (s : LoopState)
    (file : StateFile) :
    (loopIteration shuffleFlag env s file).map (fun r => (r.currentFile, r.state)) =
      (indexAt (wrapAround shuffleFlag env.rnd s).playOrder
        (wrapAround shuffleFlag env.rnd s).currentIndex).map
        (fun t => (t, ⟨(wrapAround shuffleFlag env.rnd s).playOrder,
          (wrapAround shuffleFlag env.rnd s).currentIndex + 1⟩)) := by
  cases hidx : indexAt (wrapAround shuffleFlag env.rnd s).playOrder
      (wrapAround shuffleFlag env.rnd s).currentIndex with
  | none => simp only [loopIteration, hidx, Option.map_none']
  | some t => simp only [loopIteration, hidx, Option.map_some']

/-- C17: for every state, the track played and the variables (order, position) after one
pass of the loop are the same whether the player succeeded or failed and whether the save
succeeded or failed; whenever the pass completes, the position is the position after the
wraparound check plus one and the order is the order after that check; and the pass
completes, so that the loop goes on to the next track, whenever the order is not empty and
the position is not negative. -/
theorem failures_do_not_alter_state (shuffleFlag : Int) (rnd : Nat → Nat) (s : LoopState)
    (file : StateFile) (ok1 ok2 : Bool) (save1 save2 : SaveOutcome) :
    (loopIteration shuffleFlag ⟨rnd, ok1, save1⟩ s file).map (fun r => (r.currentFile, r.state)) =
        (loopIteration shuffleFlag ⟨rnd, ok2, save2⟩ s file).map
          (fun r => (r.currentFile, r.state)) ∧
      (∀ r, loopIteration shuffleFlag ⟨rnd, ok1, save1⟩ s file = some r →
        r.state = ⟨(wrapAround shuffleFlag rnd s).playOrder,
          (wrapAround shuffleFlag rnd s).currentIndex + 1⟩) ∧
      (s.playOrder ≠ [] → 0 ≤ s.currentIndex →
        ∃ r, loopIteration shuffleFlag ⟨rnd, ok1, save1⟩ s file = some r) := by
  refine ⟨?_, ?_, ?_⟩
  · rw [loopIteration_state, loopIteration_state]
  · intro r hr
    have h := loopIteration_state shuffleFlag ⟨rnd, ok1, save1⟩ s file
    rw [hr] at h
    cases hidx : indexAt (wrapAround shuffleFlag rnd s).playOrder
        (wrapAround shuffleFlag rnd s).currentIndex with
    | none =>
      rw [hidx] at h
      cases h
    | some t =>
      rw [hidx] at h
      simp only [Option.map_some', Option.some.injEq, Prod.mk.injEq] at h
      exact h.2
  · intro hne h0
    obtain ⟨r, hr, _⟩ := loopIteration_eq shuffleFlag ⟨rnd, ok1, save1⟩ s file hne h0
    exact ⟨r, hr⟩

/-- Witness for C17: a pass with failing player and failing save from position 0 of two
tracks completes. -/
theorem failures_do_not_alter_state_witness :
    (["/m/a.mp3".toList, "/m/b.mp3".toList] ≠ [] ∧ (0 : Int) ≤ 0) ∧
      ∃ r, loopIteration 0 ⟨fun _ => 0, false, .createFailed⟩
        ⟨["/m/a.mp3".toList, "/m/b.mp3".toList], 0⟩ .absent = some r :=
  ⟨by decide,
    (failures_do_not_alter_state 0 (fun _ => 0) ⟨["/m/a.mp3".toList, "/m/b.mp3".toList], 0⟩
      .absent false true .createFailed .ok).2.2 (by decide) (by decide)⟩

/-- One pass from a non-empty order and a non-negative position: the read is in bounds, the
order is rearranged at most, and the position saved lies between 1 and the length. -/
theorem loopIteration_invariant (shuffleFlag : Int) (env : IterEnv) (s : LoopState)
    (file : StateFile) (hne : s.playOrder ≠ []) (h0 : 0 ≤ s.currentIndex) :
    ∃ r, loopIteration shuffleFlag env s file = some r ∧
      r.state.playOrder.Perm s.playOrder ∧ r.currentFile ∈ r.state.playOrder ∧
      1 ≤ r.state.currentIndex ∧ r.state.currentIndex ≤ (r.state.playOrder.length : Int) ∧
      r.file =
        (saveOrder env.save file r.state.playOrder r.state.currentIndex shuffleFlag).1 := by
  obtain ⟨r, hr, hget, hstate, hfile⟩ := loopIteration_eq shuffleFlag env s file hne h0
  obtain ⟨hlo, hhi⟩ := wrapAround_index shuffleFlag env.rnd s hne h0
  refine ⟨r, hr, ?_, ?_, ?_, ?_, ?_⟩
  · rw [hstate]
    exact wrapAround_perm shuffleFlag env.rnd s
  · rw [hstate]
    exact List.getElem?_mem hget
  · rw [hstate]
    show 1 ≤ (wrapAround shuffleFlag env.rnd s).currentIndex + 1
    omega
  · rw [hstate]
    show (wrapAround shuffleFlag env.rnd s).currentIndex + 1 ≤
      ((wrapAround shuffleFlag env.rnd s).playOrder.length : Int)
    omega
  · rw [hfile, hstate]

/-- The invariant of the loop: any number of passes from an order that is a rearrangement of
`order` and a non-negative position complete, and each of them leaves a rearrangement of
`order`, has read inside it, and saves a position between 1 and its length. -/
theorem runLoop_invariant (shuffleFlag : Int) (order : List GoString) (hne : order ≠ [])
    (envs : List IterEnv) (s : LoopState) (file : StateFile)
    (hperm : s.playOrder.Perm order) (h0 : 0 ≤ s.currentIndex) :
    ∃ rs, runLoop shuffleFlag envs s file = some rs ∧ rs.length = envs.length ∧
      (∀ r ∈ rs, r.state.playOrder.Perm order ∧ r.state.playOrder.length = order.length ∧
        r.currentFile ∈ order ∧ 1 ≤ r.state.currentIndex ∧
        r.state.currentIndex ≤ (order.length : Int)) ∧
      (∀ p ∈ envs.zip rs, p.1.save = .ok →
        p.2.file =
          .present (saveOrderText p.2.state.playOrder p.2.state.currentIndex shuffleFlag)) := by
  induction envs generalizing s file with
  | nil =>
    refine ⟨[], rfl, rfl, ?_, ?_⟩
    · intro r hr
      cases hr
    · intro p hp
      simp at hp
  | cons env rest ih =>
    have hsne : s.playOrder ≠ [] := by
      intro e
      rw [e] at hperm
      exact hne hperm.nil_eq.symm
    obtain ⟨r, hr, hp1, hmem, hlo, hhi, hfile⟩ :=
      loopIteration_invariant shuffleFlag env s file hsne h0
    have hperm1 : r.state.playOrder.Perm order := hp1.trans hperm
    obtain ⟨rs, hrs, hlen, hall, hsaved⟩ := ih r.state r.file hperm1 (by omega)
    refine ⟨r :: rs, ?_, ?_, ?_, ?_⟩
    · simp only [runLoop, hr, hrs]
    · simp only [List.length_cons, hlen]
    · intro x hx
      rcases List.mem_cons.1 hx with rfl | hx
      · refine ⟨hperm1, hperm1.length_eq, hperm1.subset hmem, hlo, ?_⟩
        rw [← hperm1.length_eq]
        exact hhi
      · exact hall x hx
    · intro p hp hok
      simp only [List.zip_cons_cons, List.mem_cons] at hp
      rcases hp with rfl | hp
      · simp only at hok ⊢
        rw [hfile, hok]
        rfl
      · exact hsaved p hp hok

/-- C18: starting from a freshly built state (a non-empty order at position 0), any number
of passes of the loop, in every mode and whatever the player, the saves and the random
source do, complete without a read out of bounds; after each pass the order is a
rearrangement of the initial order with the same length, the track played is one of its
elements, and the position handed to `saveOrder` at the end of the pass lies between 1 and
`len(order)` inclusive (a successful save leaves exactly that state in the file). -/
theorem loop_invariant_from_fresh (shuffleFlag : Int) (order : List GoString)
    (envs : List IterEnv) (file : StateFile) (hne : order ≠ []) :
    ∃ rs, runLoop shuffleFlag envs ⟨order, 0⟩ file = some rs ∧ rs.length = envs.length ∧
      (∀ r ∈ rs, r.state.playOrder.Perm order ∧ r.state.playOrder.length = order.length ∧
        r.currentFile ∈ order ∧ 1 ≤ r.state.currentIndex ∧
        r.state.currentIndex ≤ (order.length : Int)) ∧
      (∀ p ∈ envs.zip rs, p.1.save = .ok →
        p.2.file =
          .present (saveOrderText p.2.state.playOrder p.2.state.currentIndex shuffleFlag)) :=
  runLoop_invariant shuffleFlag order hne envs ⟨order, 0⟩ file (List.Perm.refl _)
    (le_refl _)

/-- Witness for C18: five passes in Shuffled mode over two tracks, with a failing player
and a failing save among them. -/
theorem loop_invariant_from_fresh_witness :
    ([['A'], ['B']] : List GoString) ≠ [] ∧
      ∃ rs, runLoop 1 [⟨fun _ => 0, true, .ok⟩, ⟨fun _ => 0, false, .ok⟩,
          ⟨fun _ => 0, true, .createFailed⟩, ⟨fun i => i, true, .ok⟩,
          ⟨fun _ => 0, true, .writeFailed 3⟩] ⟨[['A'], ['B']], 0⟩ .absent = some rs ∧
        rs.length = 5 ∧
        ∀ r ∈ rs, r.state.playOrder.Perm [['A'], ['B']] ∧
          r.state.playOrder.length = ([['A'], ['B']] : List GoString).length ∧
          r.currentFile ∈ ([['A'], ['B']] : List GoString) ∧ 1 ≤ r.state.currentIndex ∧
          r.state.currentIndex ≤ ((([['A'], ['B']] : List GoString).length : Nat) : Int) := by
  refine ⟨by decide, ?_⟩
  obtain ⟨rs, hrs, hlen, hall, _⟩ :=
    loop_invariant_from_fresh 1 [['A'], ['B']]
      [⟨fun _ => 0, true, .ok⟩, ⟨fun _ => 0, false, .ok⟩, ⟨fun _ => 0, true, .createFailed⟩,
        ⟨fun i => i, true, .ok⟩, ⟨fun _ => 0, true, .writeFailed 3⟩] .absent (by decide)
  exact ⟨rs, hrs, hlen, hall⟩

/-! ## The filter of the directory walk -/

/-- The loop of `filepath.Ext` in terms of the reversed last path element. -/
theorem extLoop_eq (l seen : GoString) :
    extLoop l seen =
      if '.' ∈ l.takeWhile (fun c => c ≠ '/') then
        '.' :: (((l.takeWhile (fun c => c ≠ '/')).takeWhile (fun c => c ≠ '.')).reverse ++ seen)
      else [] := by
  induction l generalizing seen with
  | nil => simp [extLoop]
  | cons c before ih =>
    by_cases hs : c = '/'
    · subst hs
      simp [extLoop, isPathSeparator]
    · by_cases hd : c = '.'
      · subst hd
        simp [extLoop, isPathSeparator]
      · have hd2 : ¬ ('.' = c) := fun e => hd e.symm
        simp only [extLoop, isPathSeparator, hs, hd, decide_False, Bool.false_eq_true, if_false,
          ih, ne_eq, not_false_eq_true, decide_True, List.takeWhile_cons_of_pos,
          List.mem_cons, hd2, false_or, List.reverse_cons, List.append_assoc,
          List.singleton_append]

/-- Function `filepath.Ext` returns the suffix starting at the last dot of the last path
element, and the empty string when that element has no dot. -/
theorem Ext_eq_suffixFromLastDot (path : GoString) :
    Ext path = suffixFromLastDot (lastElement path) := by
  unfold Ext suffixFromLastDot lastElement
  rw [extLoop_eq]
  simp

theorem asciiLower_dot (c : Char) (h : c.toNat < 128) : asciiLower c = '.' ↔ c = '.' := by
  obtain ⟨n, hn, rfl⟩ : ∃ n, n < 128 ∧ c = Char.ofNat n :=
    ⟨c.toNat, h, (Char.ofNat_toNat c).symm⟩
  interval_cases n <;> decide

theorem asciiLower_m (c : Char) (h : c.toNat < 128) :
    asciiLower c = 'm' ↔ c = 'm' ∨ c = 'M' := by
  obtain ⟨n, hn, rfl⟩ : ∃ n, n < 128 ∧ c = Char.ofNat n :=
    ⟨c.toNat, h, (Char.ofNat_toNat c).symm⟩
  interval_cases n <;> decide

theorem asciiLower_p (c : Char) (h : c.toNat < 128) :
    asciiLower c = 'p' ↔ c = 'p' ∨ c = 'P' := by
  obtain ⟨n, hn, rfl⟩ : ∃ n, n < 128 ∧ c = Char.ofNat n :=
    ⟨c.toNat, h, (Char.ofNat_toNat c).symm⟩
  interval_cases n <;> decide

theorem asciiLower_three (c : Char) (h : c.toNat < 128) : asciiLower c = '3' ↔ c = '3' := by
  obtain ⟨n, hn, rfl⟩ : ∃ n, n < 128 ∧ c = Char.ofNat n :=
    ⟨c.toNat, h, (Char.ofNat_toNat c).symm⟩
  interval_cases n <;> decide

theorem toLowerRune_dot (tbl : Char → Char) (htbl : AvoidsMp3 tbl) (c : Char) :
    toLowerRune tbl c = '.' ↔ c = '.' := by
  unfold toLowerRune
  by_cases h : c.toNat < 128
  · rw [if_pos h]
    exact asciiLower_dot c h
  · rw [if_neg h]
    constructor
    · intro e
      exact absurd e (htbl c (by omega)).1
    · intro e
      subst e
      exact absurd (by decide) h

theorem toLowerRune_m (tbl : Char → Char) (htbl : AvoidsMp3 tbl) (c : Char) :
    toLowerRune tbl c = 'm' ↔ c = 'm' ∨ c = 'M' := by
  unfold toLowerRune
  by_cases h : c.toNat < 128
  · rw [if_pos h]
    exact asciiLower_m c h
  · rw [if_neg h]
    constructor
    · intro e
      exact absurd e (htbl c (by omega)).2.1
    · intro e
      rcases e with e | e <;> subst e <;> exact absurd (by decide) h

theorem toLowerRune_p (tbl : Char → Char) (htbl : AvoidsMp3 tbl) (c : Char) :
    toLowerRune tbl c = 'p' ↔ c = 'p' ∨ c = 'P' := by
  unfold toLowerRune
  by_cases h : c.toNat < 128
  · rw [if_pos h]
    exact asciiLower_p c h
  · rw [if_neg h]
    constructor
    · intro e
      exact absurd e (htbl c (by omega)).2.2.1
    · intro e
      rcases e with e | e <;> subst e <;> exact absurd (by decide) h

theorem toLowerRune_three (tbl : Char → Char) (htbl : AvoidsMp3 tbl) (c : Char) :
    toLowerRune tbl c = '3' ↔ c = '3' := by
  unfold toLowerRune
  by_cases h : c.toNat < 128
  · rw [if_pos h]
    exact asciiLower_three c h
  · rw [if_neg h]
    constructor
    · intro e
      exact absurd e (htbl c (by omega)).2.2.2
    · intro e
      subst e
      exact absurd (by decide) h

/-- The extensions that equal ".mp3" when compared in lower case are its four spellings. -/
theorem ToLower_eq_mp3 (tbl : Char → Char) (htbl : AvoidsMp3 tbl) (ext : GoString) :
    ToLower tbl ext = ".mp3".toList ↔
      ext ∈ [".mp3".toList, ".mP3".toList, ".Mp3".toList, ".MP3".toList] := by
  have hlit : ".mp3".toList = ['.', 'm', 'p', '3'] := rfl
  have h1 : ".mP3".toList = ['.', 'm', 'P', '3'] := rfl
  have h2 : ".Mp3".toList = ['.', 'M', 'p', '3'] := rfl
  have h3 : ".MP3".toList = ['.', 'M', 'P', '3'] := rfl
  rw [hlit, h1, h2, h3]
  unfold ToLower
  match ext with
  | [] => simp
  | [_] => simp
  | [_, _] => simp
  | [_, _, _] => simp
  | _ :: _ :: _ :: _ :: _ :: _ => simp
  | [a, b, c, d] =>
    simp only [List.map_cons, List.map_nil, List.cons.injEq, and_true, List.mem_cons,
      List.mem_singleton, toLowerRune_dot tbl htbl, toLowerRune_m tbl htbl,
      toLowerRune_p tbl htbl, toLowerRune_three tbl htbl, List.not_mem_nil, or_false]
    constructor
    · rintro ⟨rfl, hb, hc, rfl⟩
      rcases hb with rfl | rfl <;> rcases hc with rfl | rfl <;> simp
    · intro h
      rcases h with h | h | h | h <;> obtain ⟨rfl, rfl, rfl, rfl⟩ := h <;> simp

/-- The walk without errors keeps, in the order of the visit, the paths that pass the
test of the walk function. -/
theorem walkAll_eq (tbl : Char → Char) (entries : List WalkEntry) (files : List GoString)
    (h : ∀ e ∈ entries, e.err = false) :
    walkAll tbl entries files =
      some (files ++ (entries.filter (fun e =>
        !e.isDir && decide (ToLower tbl (Ext e.path) = ".mp3".toList))).map
          (fun e => e.path)) := by
  induction entries generalizing files with
  | nil => simp [walkAll]
  | cons e rest ih =>
    have he : e.err = false := h e (List.mem_cons_self _ _)
    have hrest : ∀ x ∈ rest, x.err = false := fun x hx => h x (List.mem_cons_of_mem _ hx)
    by_cases hq : (!e.isDir && decide (ToLower tbl (Ext e.path) = ".mp3".toList)) = true
    · rw [List.filter_cons]
      simp only [walkAll, walkFn, he, Bool.false_eq_true, if_false, hq, if_true, ih _ hrest,
        List.map_cons, List.append_assoc, List.singleton_append]
    · rw [List.filter_cons]
      simp only [walkAll, walkFn, he, Bool.false_eq_true, if_false, hq, ih _ hrest]

/-- C14: a path visited by the walk (without a walk error) is appended to the file list if
and only if it is not a directory and the suffix starting at the last dot of its last path
element, put in lower case, equals ".mp3"; the whole walk yields exactly the visited paths
that pass this test, in the order of the visit; given that the Unicode tables map no
character above ASCII to a character of ".mp3", the extensions that pass are ".mp3", ".mP3",
".Mp3" and ".MP3"; and "a.MP3" and "b.Mp3" are appended while "c.mp3.bak" and "mp3" are
not. -/
theorem walk_filter (tbl : Char → Char) :
    (∀ (files : List GoString) (e : WalkEntry), e.err = false →
      walkFn tbl files e =
        some (if e.isDir = false ∧
            ToLower tbl (suffixFromLastDot (lastElement e.path)) = ".mp3".toList
          then files ++ [e.path] else files)) ∧
    (∀ entries : List WalkEntry, (∀ e ∈ entries, e.err = false) →
      walkAll tbl entries [] =
        some ((entries.filter (fun e => !e.isDir &&
          decide (ToLower tbl (suffixFromLastDot (lastElement e.path)) = ".mp3".toList))).map
            (fun e => e.path))) ∧
    (AvoidsMp3 tbl → ∀ ext : GoString, ToLower tbl ext = ".mp3".toList ↔
      ext ∈ [".mp3".toList, ".mP3".toList, ".Mp3".toList, ".MP3".toList]) ∧
    (walkFn tbl [] ⟨"a.MP3".toList, false, false⟩ = some ["a.MP3".toList] ∧
      walkFn tbl [] ⟨"b.Mp3".toList, false, false⟩ = some ["b.Mp3".toList] ∧
      walkFn tbl [] ⟨"c.mp3.bak".toList, false, false⟩ = some [] ∧
      walkFn tbl [] ⟨"mp3".toList, false, false⟩ = some []) := by
  refine ⟨?_, ?_, fun htbl ext => ToLower_eq_mp3 tbl htbl ext, ?_⟩
  · intro files e he
    simp only [walkFn, he, Bool.false_eq_true, if_false, Ext_eq_suffixFromLastDot]
    by_cases hd : e.isDir = true
    · simp [hd]
    · have hd2 : e.isDir = false := by simpa using hd
      simp only [hd2, Bool.not_false, Bool.true_and, decide_eq_true_eq, true_and]
      split <;> rfl
  · intro entries h
    have := walkAll_eq tbl entries [] h
    simpa [Ext_eq_suffixFromLastDot] using this
  · refine ⟨rfl, rfl, rfl, rfl⟩

/-- Witness for C14: with lower-casing that leaves the characters above ASCII alone, a
walk over a directory, two qualifying files, a directory named like an mp3 file and a
backup file keeps the two files. -/
theorem walk_filter_witness :
    (∀ e ∈ [(⟨"/m".toList, true, false⟩ : WalkEntry), ⟨"/m/a.MP3".toList, false, false⟩,
        ⟨"/m/d.mp3".toList, true, false⟩, ⟨"/m/c.mp3.bak".toList, false, false⟩,
        ⟨"/m/b.Mp3".toList, false, false⟩], e.err = false) ∧
      walkAll id [⟨"/m".toList, true, false⟩, ⟨"/m/a.MP3".toList, false, false⟩,
        ⟨"/m/d.mp3".toList, true, false⟩, ⟨"/m/c.mp3.bak".toList, false, false⟩,
        ⟨"/m/b.Mp3".toList, false, false⟩] [] =
        some ["/m/a.MP3".toList, "/m/b.Mp3".toList] := by
  refine ⟨by decide, ?_⟩
  rw [(walk_filter id).2.1 _ (by decide)]
  decide

/-! ## Kill during playback and restart -/

/-- Without a reshuffle the wraparound check does not depend on the random source. -/
theorem wrapAround_no_shuffle (shuffleFlag : Int) (rnd1 rnd2 : Nat → Nat) (s : LoopState)
    (h : s.currentIndex < (s.playOrder.length : Int) ∨ shuffleFlag ≠ 1) :
    wrapAround shuffleFlag rnd1 s = wrapAround shuffleFlag rnd2 s := by
  rcases h with h | h
  · rw [wrapAround_in_bounds shuffleFlag rnd1 s h, wrapAround_in_bounds shuffleFlag rnd2 s h]
  · simp only [wrapAround, h, if_false]

theorem killedIteration_eq (shuffleFlag : Int) (rnd : Nat → Nat) (s : LoopState)
    (file : StateFile) (t : GoString) (left : StateFile)
    (h : killedIteration shuffleFlag rnd s file = some (t, left)) :
    indexAt (wrapAround shuffleFlag rnd s).playOrder
        (wrapAround shuffleFlag rnd s).currentIndex = some t ∧ left = file := by
  unfold killedIteration at h
  cases hidx : indexAt (wrapAround shuffleFlag rnd s).playOrder
      (wrapAround shuffleFlag rnd s).currentIndex with
  | none => simp [hidx] at h
  | some u =>
    simp only [hidx, Option.some.injEq, Prod.mk.injEq] at h
    exact ⟨by rw [h.1], h.2.symm⟩

theorem indexAt_ne_nil (playOrder : List GoString) (currentIndex : Int) (t : GoString)
    (h : indexAt playOrder currentIndex = some t) : playOrder ≠ [] := by
  intro e
  subst e
  unfold indexAt at h
  split at h
  · cases h
  · simp at h

/-- C12 (as amended): for every state whose state file loads back exactly the order, the
position and the requested mode held in memory (as after a successful save), if the process
is killed while a track `t` is playing and is restarted with the same requested mode and
as many discovered files, then the state file is the one the interrupted pass started with,
reconciliation reuses the saved state, and the first track played after the restart is the
one read after the wraparound check of the restarted loop, with its own random source; it
is `t` whenever the interrupted pass did not reshuffle, that is when the position was
inside the order or the mode is not Shuffled. -/
theorem crash_restart_replays_track (shuffleFlag : Int) (s : LoopState) (file : StateFile)
    (rnd : Nat → Nat) (t : GoString) (left : StateFile) (files : List GoString)
    (rnd2 : Nat → Nat) (save2 : SaveOutcome) (env2 : IterEnv)
    (hsync : loadOrder file = ⟨s.playOrder, s.currentIndex, shuffleFlag, none⟩)
    (hkill : killedIteration shuffleFlag rnd s file = some (t, left))
    (hcount : files.length = s.playOrder.length) :
    left = file ∧ startup files shuffleFlag left rnd2 save2 = .enter s left ∧
      firstTrackAfterStart files shuffleFlag left rnd2 save2 env2 =
        indexAt (wrapAround shuffleFlag env2.rnd s).playOrder
          (wrapAround shuffleFlag env2.rnd s).currentIndex ∧
      (s.currentIndex < (s.playOrder.length : Int) ∨ shuffleFlag ≠ 1 →
        firstTrackAfterStart files shuffleFlag left rnd2 save2 env2 = some t) := by
  obtain ⟨hidx, hleft⟩ := killedIteration_eq shuffleFlag rnd s file t left hkill
  subst hleft
  have hwne := indexAt_ne_nil _ _ _ hidx
  have hsne : s.playOrder ≠ [] := by
    intro e
    have hp := wrapAround_perm shuffleFlag rnd s
    rw [e] at hp
    exact hwne hp.eq_nil
  have hfiles : files ≠ [] := by
    intro e
    rw [e] at hcount
    exact hsne (List.length_eq_zero.1 hcount.symm)
  have hex : loadExisting shuffleFlag left = s := by
    rw [loadExisting_ok shuffleFlag left (by rw [hsync]) (by rw [hsync]), hsync]
  have hstart : startup files shuffleFlag left rnd2 save2 = .enter s left := by
    rw [startup_reuse files shuffleFlag left rnd2 save2 hfiles (by rw [hex]; exact hcount.symm),
      hex]
  have hfirst : firstTrackAfterStart files shuffleFlag left rnd2 save2 env2 =
      indexAt (wrapAround shuffleFlag env2.rnd s).playOrder
        (wrapAround shuffleFlag env2.rnd s).currentIndex := by
    unfold firstTrackAfterStart
    rw [hstart]
    show Option.map (fun r => r.currentFile) (loopIteration shuffleFlag env2 s left) = _
    have h := congrArg (Option.map Prod.fst) (loopIteration_state shuffleFlag env2 s left)
    simp only [Option.map_map] at h
    rw [show (Prod.fst ∘ fun r : IterResult => (r.currentFile, r.state)) =
      (fun r => r.currentFile) from rfl] at h
    rw [h]
    cases indexAt (wrapAround shuffleFlag env2.rnd s).playOrder
      (wrapAround shuffleFlag env2.rnd s).currentIndex <;> rfl
  refine ⟨rfl, hstart, hfirst, ?_⟩
  intro hnoshuffle
  rw [hfirst, wrapAround_no_shuffle shuffleFlag env2.rnd rnd s hnoshuffle, hidx]

/-- Witness for C12: killed while the second of two tracks plays, in Shuffled mode. -/
theorem crash_restart_replays_track_witness :
    (loadOrder (.present (saveOrderText ["/m/b.mp3".toList, "/m/a.mp3".toList] 1 1)) =
        ⟨["/m/b.mp3".toList, "/m/a.mp3".toList], 1, 1, none⟩ ∧
      killedIteration 1 (fun _ => 0) ⟨["/m/b.mp3".toList, "/m/a.mp3".toList], 1⟩
          (.present (saveOrderText ["/m/b.mp3".toList, "/m/a.mp3".toList] 1 1)) =
        some ("/m/a.mp3".toList,
          .present (saveOrderText ["/m/b.mp3".toList, "/m/a.mp3".toList] 1 1))) ∧
      firstTrackAfterStart ["/m/a.mp3".toList, "/m/b.mp3".toList] 1
          (.present (saveOrderText ["/m/b.mp3".toList, "/m/a.mp3".toList] 1 1)) (fun i => i)
          .ok ⟨fun i => i, true, .ok⟩ = some "/m/a.mp3".toList :=
  ⟨by decide,
    (crash_restart_replays_track 1 ⟨["/m/b.mp3".toList, "/m/a.mp3".toList], 1⟩
      (.present (saveOrderText ["/m/b.mp3".toList, "/m/a.mp3".toList] 1 1)) (fun _ => 0)
      "/m/a.mp3".toList (.present (saveOrderText ["/m/b.mp3".toList, "/m/a.mp3".toList] 1 1))
      ["/m/a.mp3".toList, "/m/b.mp3".toList] (fun i => i) .ok ⟨fun i => i, true, .ok⟩
      (by decide) (by decide) (by decide)).2.2.2 (by decide)⟩

/-- C12 as stated fails in two ways.  In Shuffled mode the state with order a, b at
position 2 is reached by two passes with successful saves and is what the file holds; the
next pass reshuffles to b, a and is killed while b plays; the restart reuses the file,
reshuffles with its own random source and plays a.  In Sequential mode a pass whose save
fails leaves position 1 in memory and position 0 in the file; killed while b plays, the
restart plays a. -/
theorem crash_restart_counterexample :
    ((runLoop 1 [⟨fun _ => 0, true, .ok⟩, ⟨fun _ => 0, true, .ok⟩] ⟨[['a'], ['b']], 0⟩
          (.present (saveOrderText [['a'], ['b']] 0 1))).map
          (fun rs => rs.map (fun r => (r.state, r.file))) =
        some [(⟨[['a'], ['b']], 1⟩, .present (saveOrderText [['a'], ['b']] 1 1)),
          (⟨[['a'], ['b']], 2⟩, .present (saveOrderText [['a'], ['b']] 2 1))] ∧
      killedIteration 1 (fun _ => 0) ⟨[['a'], ['b']], 2⟩
          (.present (saveOrderText [['a'], ['b']] 2 1)) =
        some (['b'], .present (saveOrderText [['a'], ['b']] 2 1)) ∧
      firstTrackAfterStart [['a'], ['b']] 1 (.present (saveOrderText [['a'], ['b']] 2 1))
          (fun _ => 0) .ok ⟨fun i => i, true, .ok⟩ = some ['a']) ∧
    ((runLoop 0 [⟨fun _ => 0, true, .createFailed⟩] ⟨[['a'], ['b']], 0⟩
          (.present (saveOrderText [['a'], ['b']] 0 0))).map
          (fun rs => rs.map (fun r => (r.state, r.file))) =
        some [(⟨[['a'], ['b']], 1⟩, .present (saveOrderText [['a'], ['b']] 0 0))] ∧
      killedIteration 0 (fun _ => 0) ⟨[['a'], ['b']], 1⟩
          (.present (saveOrderText [['a'], ['b']] 0 0)) =
        some (['b'], .present (saveOrderText [['a'], ['b']] 0 0)) ∧
      firstTrackAfterStart [['a'], ['b']] 0 (.present (saveOrderText [['a'], ['b']] 0 0))
          (fun _ => 0) .ok ⟨fun _ => 0, true, .ok⟩ = some ['a']) := by
  decide

/-! ## Prefixes of the saved text -/

/-- A prefix of a line followed by a newline and more text either lies within the line or
contains the whole line and the newline. -/
theorem prefix_line_cases (line rest X : GoString) (h : X <+: line ++ '\n' :: rest) :
    X <+: line ∨ ∃ R, X = line ++ '\n' :: R ∧ R <+: rest := by
  induction line generalizing X with
  | nil =>
    rcases List.prefix_cons_iff.1 h with rfl | ⟨t, rfl, ht⟩
    · exact Or.inl List.nil_prefix
    · exact Or.inr ⟨t, rfl, ht⟩
  | cons c cs ih =>
    rw [List.cons_append] at h
    rcases List.prefix_cons_iff.1 h with rfl | ⟨t, rfl, ht⟩
    · exact Or.inl List.nil_prefix
    · rcases ih t ht with h1 | ⟨R, rfl, hR⟩
      · exact Or.inl ((List.prefix_cons_inj c).2 h1)
      · exact Or.inr ⟨R, rfl, hR⟩

theorem not_mem_of_initial (X line : GoString) (c : Char) (h : X <+: line) (hc : c ∉ line) :
    c ∉ X :=
  fun hx => hc (h.subset hx)

theorem dropCR_initial (data : GoString) : dropCR data <+: data := by
  unfold dropCR
  split
  · exact List.dropLast_prefix data
  · exact List.prefix_refl data

/-- A text without a newline gives at most one token. -/
theorem scanLines_no_newline (X : GoString) (h : '\n' ∉ X) :
    (scanLines X).tokens.length ≤ 1 := by
  unfold scanLines
  rw [splitNewline_of_not_mem X h]
  simp only [scanSegments]
  split
  · simp
  · split <;> simp

/-- A complete first line at the front of a text, in general. -/
theorem scanLines_line_cases (line rest : GoString) (hnl : '\n' ∉ line) :
    scanLines (line ++ '\n' :: rest) =
      if maxScanTokenSize ≤ byteLen line then ⟨[], some .tooLong⟩
      else ⟨dropCR line :: (scanLines rest).tokens, (scanLines rest).err⟩ := by
  unfold scanLines
  rw [splitNewline_append _ _ hnl, scanSegments_cons _ _ (splitNewline_ne_nil rest)]

/-- With at most two tokens no path is loaded. -/
theorem loadLoop_order_nil (scanErr : Option ScanError) (tokens : List GoString)
    (h : tokens.length ≤ 2) : (loadLoop scanErr tokens 0 [] 0 0).order = [] := by
  match tokens, h with
  | [], _ =>
    simp only [loadLoop]
    cases scanErr <;> rfl
  | [t], _ =>
    simp only [loadLoop, if_true]
    cases Atoi t with
    | none => rfl
    | some v =>
      simp only [loadLoop]
      cases scanErr <;> rfl
  | [t, u], _ =>
    simp only [loadLoop, if_true]
    cases Atoi t with
    | none => rfl
    | some v =>
      simp only [loadLoop, Nat.zero_add, Nat.succ_ne_zero, if_false, if_true]
      cases Atoi u with
      | none => rfl
      | some w =>
        simp only [loadLoop]
        cases scanErr <;> rfl
  | _ :: _ :: _ :: _, h =>
    simp only [List.length_cons] at h
    omega

/-- What `loadOrder` returns for a text with two integer header lines, given what the
scanner delivers for the rest. -/
theorem loadOrderText_header (X : GoString) (currentIndex currentMode : Int)
    (hi : IsInt currentIndex) (hm : IsInt currentMode) :
    loadOrderText (formatInt currentIndex ++ '\n' :: (formatInt currentMode ++ '\n' :: X)) =
      match (scanLines X).err with
      | some e => loadFailure (.scan e)
      | none => ⟨(scanLines X).tokens, currentIndex, currentMode, none⟩ := by
  unfold loadOrderText
  rw [scanLines_line _ _ (formatInt_no_newline _) (byteLen_formatInt_lt _ hi),
    scanLines_line _ _ (formatInt_no_newline _) (byteLen_formatInt_lt _ hm),
    formatInt_dropCR, formatInt_dropCR]
  simp only [loadLoop, if_true, Atoi_formatInt _ hi, Atoi_formatInt _ hm]
  simp only [Nat.zero_add, Nat.succ_ne_zero, if_false, if_true]
  rw [loadLoop_paths _ _ _ _ (by omega)]
  simp

/-- The tokens of a proper prefix of the path lines: when there are as many as paths, they
are the paths, except that the last one is a prefix of the last path. -/
theorem scanLines_prefix_writeLines (order : List GoString)
    (hnl : ∀ p ∈ order, '\n' ∉ p) (hcr : ∀ p ∈ order, p.getLast? ≠ some '\r')
    (X : GoString) (hpre : X <+: writeLines order) (hne : X ≠ writeLines order)
    (herr : (scanLines X).err = none)
    (hlen : (scanLines X).tokens.length = order.length) :
    (scanLines X).tokens.dropLast = order.dropLast ∧
      ∃ last q, order.getLast? = some last ∧ (scanLines X).tokens.getLast? = some q ∧
        q <+: last := by
  induction order generalizing X with
  | nil =>
    simp only [writeLines, List.prefix_nil] at hpre
    exact absurd hpre hne
  | cons p ps ih =>
    have hp := List.mem_cons_self p ps
    have hnlp : '\n' ∉ p := hnl p hp
    simp only [writeLines] at hpre hne
    rcases prefix_line_cases p (writeLines ps) X hpre with h1 | ⟨R, rfl, hR⟩
    · have hX : '\n' ∉ X := not_mem_of_initial X p '\n' h1 hnlp
      have hsc : scanLines X = scanSegments [X] := by
        unfold scanLines
        rw [splitNewline_of_not_mem X hX]
      rw [hsc] at herr hlen ⊢
      simp only [scanSegments] at herr hlen ⊢
      by_cases hX0 : X = []
      · simp [hX0] at hlen
      · by_cases hlong : maxScanTokenSize ≤ byteLen X
        · simp [hX0, hlong] at herr
        · simp only [hX0, hlong, if_false, List.length_cons, List.length_nil] at hlen ⊢
          have hps : ps = [] := List.length_eq_zero.1 (by omega)
          subst hps
          refine ⟨rfl, p, dropCR X, rfl, rfl, (dropCR_initial X).trans h1⟩
    · have hRne : R ≠ writeLines ps := fun e => hne (by rw [e])
      rw [scanLines_line_cases p R hnlp] at herr hlen ⊢
      by_cases hlong : maxScanTokenSize ≤ byteLen p
      · simp [hlong] at herr
      · simp only [hlong, if_false, List.length_cons] at herr hlen ⊢
        obtain ⟨hdrop, last, q, hlast, hq, hpq⟩ :=
          ih (fun x hx => hnl x (List.mem_cons_of_mem _ hx))
            (fun x hx => hcr x (List.mem_cons_of_mem _ hx)) R hR hRne herr (by omega)
        have hpsne : ps ≠ [] := by
          intro e
          rw [e] at hlast
          cases hlast
        have htne : (scanLines R).tokens ≠ [] := by
          intro e
          rw [e] at hq
          cases hq
        rw [dropCR_of_getLast p (hcr p hp)]
        refine ⟨?_, last, q, ?_, ?_, hpq⟩
        · rw [List.dropLast_cons_of_ne_nil htne, List.dropLast_cons_of_ne_nil hpsne, hdrop]
        · cases ps with
          | nil => exact absurd rfl hpsne
          | cons a b =>
            rw [List.getLast?_cons_cons]
            exact hlast
        · cases hts : (scanLines R).tokens with
          | nil => exact absurd hts htne
          | cons a b =>
            rw [List.getLast?_cons_cons, ← hts]
            exact hq

/-- What `loadOrder` returns for a proper prefix of the text `saveOrder` writes: an error,
or an order of another length than the saved one, or the saved position and mode with the
saved order up to its last path, of which a prefix is loaded. -/
theorem loadOrderText_cut_short (order : List GoString) (position mode : Int)
    (hp : IsInt position) (hm : IsInt mode)
    (hnl : ∀ p ∈ order, '\n' ∉ p) (hcr : ∀ p ∈ order, p.getLast? ≠ some '\r')
    (X : GoString) (hpre : X <+: saveOrderText order position mode)
    (hne : X ≠ saveOrderText order position mode) :
    (loadOrderText X).err ≠ none ∨ (loadOrderText X).order = [] ∨
      (loadOrderText X).order.length ≠ order.length ∨
      ((loadOrderText X).currentIndex = position ∧ (loadOrderText X).currentMode = mode ∧
        (loadOrderText X).order.dropLast = order.dropLast ∧
        ∃ last q, order.getLast? = some last ∧ (loadOrderText X).order.getLast? = some q ∧
          q <+: last) := by
  unfold saveOrderText at hpre hne
  rcases prefix_line_cases _ _ X hpre with h1 | ⟨R, rfl, hR⟩
  · right
    left
    have hX : '\n' ∉ X := not_mem_of_initial X _ '\n' h1 (formatInt_no_newline position)
    exact loadLoop_order_nil _ _ (by have := scanLines_no_newline X hX; omega)
  · rcases prefix_line_cases _ _ R hR with h2 | ⟨Y, rfl, hY⟩
    · right
      left
      have hR2 : '\n' ∉ R := not_mem_of_initial R _ '\n' h2 (formatInt_no_newline mode)
      unfold loadOrderText
      rw [scanLines_line_cases _ _ (formatInt_no_newline position)]
      split
      · exact loadLoop_order_nil _ _ (by simp)
      · exact loadLoop_order_nil _ _ (by
          have := scanLines_no_newline R hR2
          simp only [List.length_cons]
          omega)
    · have hYne : Y ≠ writeLines order := fun e => hne (by rw [e])
      rw [loadOrderText_header Y position mode hp hm]
      cases herr : (scanLines Y).err with
      | some e =>
        left
        simp [loadFailure]
      | none =>
        right
        right
        simp only
        by_cases hlen : (scanLines Y).tokens.length = order.length
        · right
          obtain ⟨hdrop, hlast⟩ :=
            scanLines_prefix_writeLines order hnl hcr Y hY hYne herr hlen
          exact ⟨trivial, trivial, hdrop, hlast⟩
        · left
          exact hlen

/-- C15 (as amended): for every order, position and mode whose paths contain no newline and
do not end in a carriage return, and for every proper prefix of the text `saveOrder` writes
for it, a start with the same requested mode and as many discovered files either builds
fresh state (position 0, a rearrangement of the discovered files, written to the file) or
resumes a state with the saved position whose order is the saved order except for its last
path, of which it holds a prefix; the file is then left as it is. -/
theorem partial_write_startup (order : List GoString) (position mode : Int)
    (files : List GoString) (rnd : Nat → Nat) (save : SaveOutcome) (X : GoString)
    (hp : IsInt position) (hm : IsInt mode)
    (hnl : ∀ p ∈ order, '\n' ∉ p) (hcr : ∀ p ∈ order, p.getLast? ≠ some '\r')
    (hpre : X <+: saveOrderText order position mode)
    (hne : X ≠ saveOrderText order position mode)
    (hcount : files.length = order.length) :
    (∀ s f, (startup files mode (.present X) rnd save).entered = some (s, f) →
      (s.currentIndex = 0 ∧ s.playOrder.Perm files ∧
          f = .present (saveOrderText s.playOrder 0 mode)) ∨
        (s.currentIndex = position ∧ s.playOrder.dropLast = order.dropLast ∧
          (∃ last q, order.getLast? = some last ∧ s.playOrder.getLast? = some q ∧
            q <+: last) ∧ f = .present X)) ∧
      (files ≠ [] → (startup files mode (.present X) rnd .ok).entered ≠ none) := by
  by_cases hfresh : (loadExisting mode (.present X)).playOrder = [] ∨
      (loadExisting mode (.present X)).playOrder.length ≠ files.length
  · exact ⟨fun s f he =>
        Or.inl (startup_fresh_entered files mode _ rnd save hfresh s f he),
      fun hfiles => startup_fresh_enters files mode _ rnd hfiles hfresh⟩
  · have hne1 : (loadExisting mode (.present X)).playOrder ≠ [] := fun e => hfresh (Or.inl e)
    have hlen1 : (loadExisting mode (.present X)).playOrder.length = files.length := by
      by_contra e
      exact hfresh (Or.inr e)
    have herr : (loadOrder (.present X)).err = none := by
      by_contra e
      exact hne1 (loadExisting_error mode _ e)
    have hmode : (loadOrder (.present X)).currentMode = mode := by
      by_contra e
      exact hne1 (loadExisting_mode_changed mode _ e)
    have hex := loadExisting_ok mode (.present X) herr hmode
    have hfiles : files ≠ [] := by
      intro e
      rw [e] at hlen1
      exact hne1 (List.length_eq_zero.1 hlen1)
    have hstart := startup_reuse files mode (.present X) rnd save hfiles hlen1
    have hstart2 := startup_reuse files mode (.present X) rnd .ok hfiles hlen1
    rw [hex] at hne1 hlen1
    refine ⟨?_, fun _ => by rw [hstart2]; simp [Startup.entered]⟩
    intro s f he
    rw [hstart, hex] at he
    simp only [Startup.entered, Option.some.injEq, Prod.mk.injEq] at he
    obtain ⟨hs, hf⟩ := he
    subst hs hf
    right
    have hload := loadOrderText_cut_short order position mode hp hm hnl hcr X hpre hne
    simp only [loadOrder] at herr hne1 hlen1 ⊢
    rcases hload with h | h | h | ⟨h1, _, h3, h4⟩
    · exact absurd herr h
    · exact absurd h hne1
    · exact absurd (hlen1.trans hcount) h
    · exact ⟨h1, h3, h4, trivial⟩

/-- Witness for C15: the saved text without its final newline is loaded as the saved
state. -/
theorem partial_write_startup_witness :
    ("1\n0\n/m/a.mp3\n/m/b.mp3".toList <+:
          saveOrderText ["/m/a.mp3".toList, "/m/b.mp3".toList] 1 0 ∧
        "1\n0\n/m/a.mp3\n/m/b.mp3".toList ≠
          saveOrderText ["/m/a.mp3".toList, "/m/b.mp3".toList] 1 0) ∧
      (startup ["/m/a.mp3".toList, "/m/b.mp3".toList] 0
        (.present "1\n0\n/m/a.mp3\n/m/b.mp3".toList) (fun _ => 0) .ok).entered ≠ none :=
  ⟨⟨⟨['\n'], by decide⟩, by decide⟩,
    (partial_write_startup ["/m/a.mp3".toList, "/m/b.mp3".toList] 1 0
      ["/m/a.mp3".toList, "/m/b.mp3".toList] (fun _ => 0) .ok
      "1\n0\n/m/a.mp3\n/m/b.mp3".toList (by decide) (by decide) (by decide) (by decide)
      ⟨['\n'], by decide⟩ (by decide) (by decide)).2 (by decide)⟩

/-- C15 as stated fails in two ways.  A write of the order a.mp3, b.mp3 at position 1 cut
in the middle of the last path is loaded without error, has two paths, and is resumed with
the path "/m/b" in place of "/m/b.mp3".  And with a first path ending in a carriage return
the text without its final newline is resumed with that path changed. -/
theorem partial_write_counterexample :
    ((∀ p ∈ ["/m/a.mp3".toList, "/m/b.mp3".toList], '\n' ∉ p) ∧
      "1\n0\n/m/a.mp3\n/m/b".toList <+:
        saveOrderText ["/m/a.mp3".toList, "/m/b.mp3".toList] 1 0 ∧
      "1\n0\n/m/a.mp3\n/m/b".toList ≠
        saveOrderText ["/m/a.mp3".toList, "/m/b.mp3".toList] 1 0 ∧
      loadOrder (.present "1\n0\n/m/a.mp3\n/m/b".toList) =
        ⟨["/m/a.mp3".toList, "/m/b".toList], 1, 0, none⟩ ∧
      startup ["/m/a.mp3".toList, "/m/b.mp3".toList] 0
          (.present "1\n0\n/m/a.mp3\n/m/b".toList) (fun _ => 0) .ok =
        .enter ⟨["/m/a.mp3".toList, "/m/b".toList], 1⟩
          (.present "1\n0\n/m/a.mp3\n/m/b".toList)) ∧
    ((∀ p ∈ ["a\r".toList, "b".toList], '\n' ∉ p) ∧
      "0\n0\na\r\nb".toList <+: saveOrderText ["a\r".toList, "b".toList] 0 0 ∧
      "0\n0\na\r\nb".toList ≠ saveOrderText ["a\r".toList, "b".toList] 0 0 ∧
      startup ["a\r".toList, "b".toList] 0 (.present "0\n0\na\r\nb".toList) (fun _ => 0) .ok =
        .enter ⟨["a".toList, "b".toList], 0⟩ (.present "0\n0\na\r\nb".toList)) :=
  ⟨⟨by decide, ⟨".mp3\n".toList, by decide⟩, by decide, by decide, by decide⟩,
    ⟨by decide, ⟨['\n'], by decide⟩, by decide, by decide⟩⟩

end Mp3Persist
